import Mathlib

/-!
# Verification of the magpylib field-evaluation and broadcasting engine

This file embeds the core of `magpylib`'s field evaluation pipeline
(`src/magpylib/_lib/fields/field_wrap_BH_level2.py`, function `getBH_level2`),
the legacy single-source evaluation (`src/_lib/classes/magnets.py`, `Cube.getB`)
and the `Collection.getB` entry point
(`src/magpylib3/_lib/obj_classes/class_Collection.py`) as executable Lean
definitions, and proves the specified properties about them.

Modelling conventions:
* Machine floats are replaced by exact rationals `ℚ`; numpy arrays of vectors
  become `List Vec3`; a dense tensor of shape `(l, m, n, 3)` becomes
  `List (List (List Vec3))` in row-major order, exactly the memory order numpy
  uses for reshapes.
* `scipy.spatial.transform.Rotation` objects are modelled as 3×3 matrices
  (`Mat3`); `Rotation.inv()` is the matrix transpose, which agrees with the
  true inverse exactly on orthogonal matrices, so theorems that rely on genuine
  inversion carry an orthogonality hypothesis.
* The analytic field formulas (`Bfield_Cube`, `getBH_level1`'s core, ...) are
  outside the covered core per the spec ("invoked as external primitives");
  the pipeline is parametrised over them.
* Python's in-place mutation of object paths (temporary tiling) is modelled by
  explicit state passing: the pipeline returns the post-call paths of all
  participating objects together with the result or error.
-/
/-- A vector in ℝ³, with exact rational coordinates. -/
@[ext]
structure Vec3 where
  x : ℚ
  y : ℚ
  z : ℚ
deriving DecidableEq, Repr

namespace Vec3

def add (a b : Vec3) : Vec3 := ⟨a.x + b.x, a.y + b.y, a.z + b.z⟩

def sub (a b : Vec3) : Vec3 := ⟨a.x - b.x, a.y - b.y, a.z - b.z⟩

def neg (a : Vec3) : Vec3 := ⟨-a.x, -a.y, -a.z⟩

def zero : Vec3 := ⟨0, 0, 0⟩

def smul (q : ℚ) (a : Vec3) : Vec3 := ⟨q * a.x, q * a.y, q * a.z⟩

def dot (a b : Vec3) : ℚ := a.x * b.x + a.y * b.y + a.z * b.z

def cross (a b : Vec3) : Vec3 :=
  ⟨a.y * b.z - a.z * b.y, a.z * b.x - a.x * b.z, a.x * b.y - a.y * b.x⟩

instance : Add Vec3 := ⟨add⟩

instance : Sub Vec3 := ⟨sub⟩

instance : Neg Vec3 := ⟨neg⟩

instance : Zero Vec3 := ⟨zero⟩

end Vec3

/-- A 3×3 rational matrix, given by its three rows.  Used to model
`scipy.spatial.transform.Rotation` values: an orthogonal `Mat3` is a rotation
(up to orientation), `Rotation.apply` is the matrix-vector product and
`Rotation.inv` is the transpose. -/
@[ext]
structure Mat3 where
  r1 : Vec3
  r2 : Vec3
  r3 : Vec3
deriving DecidableEq, Repr

namespace Mat3

/-- Matrix-vector product: models `scipy Rotation.apply` on a single vector. -/
def apply (M : Mat3) (v : Vec3) : Vec3 := ⟨M.r1.dot v, M.r2.dot v, M.r3.dot v⟩

def transpose (M : Mat3) : Mat3 :=
  ⟨⟨M.r1.x, M.r2.x, M.r3.x⟩, ⟨M.r1.y, M.r2.y, M.r3.y⟩, ⟨M.r1.z, M.r2.z, M.r3.z⟩⟩

/-- The identity matrix: models the identity rotation, i.e. the quaternion
`[0,0,0,1]` the source compares against (`unitQ` in `getBH_level2`). -/
def one : Mat3 := ⟨⟨1, 0, 0⟩, ⟨0, 1, 0⟩, ⟨0, 0, 1⟩⟩

/-- Models `scipy Rotation.inv()`.  For the orthogonal matrices that represent
rotations the inverse is the transpose. -/
def inv (M : Mat3) : Mat3 := M.transpose

/-- A matrix is orthogonal when its transpose is a left inverse under the
matrix action; this is the defining property of rotation matrices that makes
`inv` a genuine inverse. -/
def IsOrtho (M : Mat3) : Prop :=
  ∀ v : Vec3, M.transpose.apply (M.apply v) = v ∧ M.apply (M.transpose.apply v) = v

end Mat3

/-- Modelled from the spec: the rotation utility `angleAxisRotation(angle, axis, v)`
used by the legacy classes (its source `magPyLib/_lib/mathLibPrivate.py` is not
under `src/`): Rodrigues rotation of `v` about the axis `a` by the angle whose
cosine is `c` and sine is `s`.  The angle is represented exactly by the pair
`(c, s)` with `c^2 + s^2 = 1`, since the sine and cosine of a degree-valued
angle are not rational. -/
def angleAxisRotation (c s : ℚ) (a v : Vec3) : Vec3 :=
  Vec3.smul c v + Vec3.smul s (a.cross v) + Vec3.smul ((1 - c) * a.dot v) a

/-- The fixed closed set of recognized source families dispatched by
`getBH_level2` (lines 218-230): `Box`, `Cylinder`, `Sphere`, `Dipole`.
`other` stands for any flattened source that belongs to none of them
(line 231-232 raises on it). -/
inductive SrcType where
  | box
  | cylinder
  | sphere
  | dipole
  | other
deriving DecidableEq, Repr

/-- The two hard errors of the evaluation core (spec section 7).  The source
raises `MagpylibBadUserInput` with distinct messages; the spec taxonomy names
them `BadInputShape` and `UnrecognizedSourceType`. -/
inductive Err where
  | badInputShape
  | unrecognizedSource
deriving DecidableEq, Repr

/-- An elementary source: family tag, excitation vector (`mag` for magnets,
`moment` for dipoles), geometry dimensions (`dim`), and a motion path
(`_pos`, `_rot`) of equal length ≥ 1. -/
structure Source where
  typ : SrcType
  ex : Vec3
  dim : List ℚ
  pos : List Vec3
  rot : List Mat3
deriving DecidableEq, Repr

/-- A top-level entry of the `sources` argument: an elementary source or a
Collection.  A Collection is kept as the flat ordered list of its elementary
members (`Collection.sources`). -/
inductive SrcEntry where
  | single (s : Source)
  | coll (members : List Source)
deriving DecidableEq, Repr

/-- Number of flattened elementary sources a top-level entry contributes. -/
def SrcEntry.size : SrcEntry → Nat
  | .single _ => 1
  | .coll ms => ms.length

/-- A Sensor: local pixel grid plus its own motion path.  `pixDims` is the
numpy shape of `pos_pix` without the trailing 3 (that is, `(N1,...,Nk)`), and
`pix` is the row-major flattening `pos_pix.reshape(-1,3)`. -/
structure Sensor where
  pixDims : List Nat
  pix : List Vec3
  pos : List Vec3
  rot : List Mat3
deriving DecidableEq, Repr

/-- The full numpy shape of the sensor's `pos_pix`, compared for equality
across sensors at lines 161-165. -/
def Sensor.pixShape (s : Sensor) : List Nat := s.pixDims ++ [3]

/-- `Sensor(pos_pix=x)`: wrapping a bare position array as a Sensor.  The
Sensor constructor defaults give a path of length 1 at the origin with the
identity orientation. -/
def Sensor.ofPos (dims : List Nat) (data : List Vec3) : Sensor :=
  ⟨dims, data, [0], [Mat3.one]⟩

/-- An element of a `list` observers argument: a Sensor object or a bare
position tuple. -/
inductive ObsItem where
  | sens (s : Sensor)
  | bare (p : Vec3)
deriving DecidableEq, Repr

def ObsItem.isSens : ObsItem → Bool
  | .sens _ => true
  | .bare _ => false

def ObsItem.barePos : ObsItem → Option Vec3
  | .sens _ => none
  | .bare p => some p

/-- The `observers` argument of `getBH_level2`: a Sensor, a bare tuple/ndarray
of positions (with its numpy shape, trailing 3 omitted), or a list of Sensors
and bare position tuples. -/
inductive ObsInput where
  | sensor (s : Sensor)
  | array (dims : List Nat) (data : List Vec3)
  | list (items : List ObsItem)
deriving DecidableEq, Repr

/-- Lines 142-155 of `getBH_level2`: normalise the observers argument to a 1D
list of Sensors.  A bare tuple/ndarray becomes one Sensor holding all the
positions as its pixel grid; a list containing at least one Sensor has each
bare element wrapped as its own single-pixel Sensor; a list of only bare
positions becomes one Sensor whose pixel grid is the whole list. -/
def format_observers (observers : ObsInput) : List Sensor :=
  match observers with
  | .sensor s => [s]
  | .array dims data => [Sensor.ofPos dims data]
  | .list items =>
      if items.any ObsItem.isSens then
        items.map (fun it =>
          match it with
          | .sens s => s
          | .bare p => Sensor.ofPos [] [p])
      else
        [Sensor.ofPos [items.length] (items.filterMap ObsItem.barePos)]

/-- Modelled from the spec: `format_obj_input` (in `magpylib/_lib/utility.py`,
not under `src/`) flattens Collections in the sources list into one 1D list of
elementary sources, preserving order. -/
def format_obj_input (sources : List SrcEntry) : List Source :=
  sources.flatMap (fun e =>
    match e with
    | .single s => [s]
    | .coll ms => ms)

/-- Modelled from the spec: `all_same` (in `magpylib/_lib/utility.py`, not
under `src/`) — whether all entries of a list are equal. -/
def all_same {α : Type} [DecidableEq α] (l : List α) : Bool :=
  match l with
  | [] => true
  | x :: xs => xs.all (· = x)

/-- Modelled from the spec (section 4.1): `get_good_path_length` (in
`magpylib/_lib/utility.py`, not under `src/`).  The reconciled path length `M`
is the maximum of all participating objects' path lengths, and it is a hard
error if any object's path length is neither 1 nor `M`. -/
def get_good_path_length (lens : List Nat) : Except Err Nat :=
  let M := lens.foldr max 1
  if lens.all (fun L => L = 1 || L = M) then .ok M else .error .badInputShape

/-- Line 170: a sensor is "unrotated" when its rotation is the unit rotation
at every path step (every quaternion equals `unitQ`; in the matrix model,
every rotation is the identity matrix). -/
def unrotatedSensor (s : Sensor) : Bool := s.rot.all (· = Mat3.one)

/-- Lines 173-182: a sensor has a "static orientation" when it has no path
(path length 1) or its orientation is the same at every path step. -/
def staticSensorRot (s : Sensor) : Bool :=
  if s.pos.length = 1 then true
  else
    match s.rot with
    | [] => true
    | r :: rs => rs.all (· = r)

/-- Lines 198-203: tile a length-1 path up to the common length `m` (the
`m > 1` guard is applied by the caller). -/
def tileSource (m : Nat) (s : Source) : Source :=
  if s.pos.length = 1 then
    { s with
      pos := List.replicate m (s.pos.headD 0)
      rot := List.replicate m (s.rot.headD Mat3.one) }
  else s

def tileSensor (m : Nat) (s : Sensor) : Sensor :=
  if s.pos.length = 1 then
    { s with
      pos := List.replicate m (s.pos.headD 0)
      rot := List.replicate m (s.rot.headD Mat3.one) }
  else s

/-- Lines 324-326: reset a tiled object by keeping only the first entry of its
current (tiled) path.  Which objects are reset is decided by the original
path length recorded when tiling happened (`reset_objects`). -/
def resetSource (orig cur : Source) : Source :=
  if orig.pos.length = 1 then
    { cur with pos := [cur.pos.headD 0], rot := [cur.rot.headD Mat3.one] }
  else cur

def resetSensor (orig cur : Sensor) : Sensor :=
  if orig.pos.length = 1 then
    { cur with pos := [cur.pos.headD 0], rot := [cur.rot.headD Mat3.one] }
  else cur

/-- Modelled from the spec (sections 4.3 and 6): `getBH_level1` (file
`field_wrap_BH_level1.py`, not under `src/`) evaluates one batch row.  It
transforms the observer position into the source's local frame (inverse
rotation applied to the world-frame difference), evaluates the closed-form
field formula on the local-frame position, and rotates the resulting field
vector back out with the source's forward orientation.  The closed-form
formulas are external primitives, so the model is parametrised over
`formula bh typ excitation dim localPos`. -/
def getBH_level1 (formula : Bool → SrcType → Vec3 → List ℚ → Vec3 → Vec3)
    (bh : Bool) (typ : SrcType) (ex : Vec3) (dim : List ℚ)
    (rot : Mat3) (pos : Vec3) (pos_obs : Vec3) : Vec3 :=
  rot.apply (formula bh typ ex dim (rot.inv.apply (pos_obs - pos)))

/-- One sensor's absolute world-frame observer positions at path step `j`
(lines 208-210): rotate the whole pixel grid by that step's orientation and
add that step's position. -/
def sensPoso (s : Sensor) (j : Nat) : List Vec3 :=
  s.pix.map (fun q => (s.rot.getD j Mat3.one).apply q + s.pos.getD j 0)

/-- Lines 208-211: the combined flat observer-position array of length `m*n`
(`n` = total pixels over all sensors): path-step major, then sensors in input
order, then pixels.  At this point all sensor paths have length `m`. -/
def posoAll (sensors : List Sensor) (m : Nat) : List Vec3 :=
  (List.range m).flatMap (fun j => sensors.flatMap (fun s => sensPoso s j))

/-- One row of the batched parameter arrays handed to `getBH_level1`:
excitation, geometry, source rotation, source position, observer position. -/
structure BatchRow where
  ex : Vec3
  dim : List ℚ
  rot : Mat3
  pos : Vec3
  pos_obs : Vec3
deriving DecidableEq, Repr

/-- `scr_dict_homo_mag` / `scr_dict_dipole` (lines 9-94): build the batched
parameter arrays for one group as one flat list of `l_group * m * n` rows.
Row `i*m*n + j*n + p` carries source `i`'s constant excitation and geometry
(`np.tile(src.mag, (mn,1))`), its step-`j` position and rotation
(`np.tile(src._pos, n).reshape(mn,3)` repeats each step entry over the `n`
pixels), and the flat observer position `poso[j*n + p]`
(`posov = np.tile(poso, (l_group,1))`). -/
def scr_dict_rows (group : List Source) (poso : List Vec3) (m n : Nat) :
    List BatchRow :=
  group.flatMap (fun s =>
    (List.range m).flatMap (fun j =>
      (List.range n).map (fun p =>
        ⟨s.ex, s.dim, s.rot.getD j Mat3.one, s.pos.getD j 0,
         poso.getD (j * n + p) 0⟩)))

/-- numpy `B_group.reshape((lg, m, n, 3))` of a flat row-major list: element
`(i, j, p)` is flat element `i*m*n + j*n + p`. -/
def reshape3 (lg m n : Nat) (flat : List Vec3) : List (List (List Vec3)) :=
  (List.range lg).map (fun i =>
    (List.range m).map (fun j =>
      (List.range n).map (fun p => flat.getD (i * (m * n) + j * n + p) 0)))

/-- Lines 215-232: one family's group together with the original pre-grouping
index of each member (`src_sorted` and `order`).  The python loop appends
`(i, src)` pairs in input order, i.e. it filters the enumerated source list. -/
def groupPairs (t : SrcType) (src_list : List Source) : List (Nat × Source) :=
  src_list.enum.filter (fun p => decide (p.2.typ = t))

/-- Lines 245-246 (and the analogous loops of the other groups): write slice
`i` of the group output at the original source index:
`B[order[iii][i]] = B_group[i]`. -/
def scatterGroup (B : List (List (List Vec3)))
    (pairs : List (Nat × List (List Vec3))) : List (List (List Vec3)) :=
  pairs.foldl (fun acc p => acc.set p.1 p.2) B

/-- Lines 237-279 for one family: build the batch dict for the group, invoke
`getBH_level1` once on all rows, reshape to `(lg, m, n, 3)`, and pair each
slice with its original source index for the scatter. -/
def evalGroup (formula : Bool → SrcType → Vec3 → List ℚ → Vec3 → Vec3)
    (bh : Bool) (t : SrcType) (src_list : List Source) (poso : List Vec3)
    (m n : Nat) : List (Nat × List (List Vec3)) :=
  let pairs := groupPairs t src_list
  let group := pairs.map (·.2)
  let flat := (scr_dict_rows group poso m n).map
    (fun r => getBH_level1 formula bh t r.ex r.dim r.rot r.pos r.pos_obs)
  (pairs.map (·.1)).zip (reshape3 group.length m n flat)

/-- Lines 234-279: allocate the dense `(l, m, n, 3)` tensor (`np.empty`,
modelled with zero entries) and evaluate the four family groups in sequence,
scattering each group's slices back at the original source indices. -/
def evalAllGroups (formula : Bool → SrcType → Vec3 → List ℚ → Vec3 → Vec3)
    (bh : Bool) (src_list : List Source) (poso : List Vec3) (m n : Nat) :
    List (List (List Vec3)) :=
  let B0 := (List.range src_list.length).map (fun _ =>
    (List.range m).map (fun _ => (List.range n).map (fun _ => (0 : Vec3))))
  [SrcType.box, SrcType.cylinder, SrcType.sphere, SrcType.dipole].foldl
    (fun B t => scatterGroup B (evalGroup formula bh t src_list poso m n)) B0

/-- Elementwise sum of two `(m, n)` slices. -/
def addSlice (A B : List (List Vec3)) : List (List Vec3) :=
  List.zipWith (List.zipWith (· + ·)) A B

def zeroSlice (m n : Nat) : List (List Vec3) :=
  (List.range m).map (fun _ => (List.range n).map (fun _ => (0 : Vec3)))

/-- `np.sum(B[i:i+col_len], axis=0)`: elementwise sum of a run of slices. -/
def sumSlices (m n : Nat) (l : List (List (List Vec3))) : List (List Vec3) :=
  l.foldr addSlice (zeroSlice m n)

/-- Lines 282-288: replace each Collection's run of member slices by one slice
holding their elementwise sum (`B[i] = np.sum(B[i:i+col_len], axis=0)` followed
by `np.delete` of the remaining members), restoring a tensor indexed by
top-level entry.  Structural recursion over the top-level entries is the net
effect of the python in-place loop. -/
def collapseColls (m n : Nat) : List SrcEntry → List (List (List Vec3)) →
    List (List (List Vec3))
  | [], B => B
  | .single _ :: es, B => B.headD (zeroSlice m n) :: collapseColls m n es B.tail
  | .coll ms :: es, B =>
      sumSlices m n (B.take ms.length) :: collapseColls m n es (B.drop ms.length)

/-- `List.map` with the element index, starting at a given index. -/
def mapIdxFrom {α β : Type} (f : Nat → α → β) : Nat → List α → List β
  | _, [] => []
  | i, a :: l => f i a :: mapIdxFrom f (i + 1) l

/-- Lines 294-309 for sensor `i`: overwrite the sensor's pixel columns
`[i*k_pixel, (i+1)*k_pixel)` of the dense tensor.  An unrotated sensor is
skipped (line 294).  With a static orientation the single inverse rotation
`sens._rot[0].inv()` is applied to the whole slice in one batched operation
(lines 295-303); otherwise the step-`j` inverse rotation `sens._rot[j].inv()`
is applied separately for every path step `j` (lines 304-309). -/
def applyOneSensorRot (k_pixel i : Nat) (unrot staticR : Bool)
    (rots : List Mat3) (B : List (List (List Vec3))) :
    List (List (List Vec3)) :=
  if unrot then B
  else if staticR then
    B.map (fun slice => slice.map (fun row =>
      mapIdxFrom (fun c v =>
        if i * k_pixel ≤ c ∧ c < (i + 1) * k_pixel then
          (rots.headD Mat3.one).inv.apply v
        else v) 0 row))
  else
    B.map (fun slice =>
      mapIdxFrom (fun j row =>
        mapIdxFrom (fun c v =>
          if i * k_pixel ≤ c ∧ c < (i + 1) * k_pixel then
            (rots.getD j Mat3.one).inv.apply v
          else v) 0 row) 0 slice)

/-- Lines 290-309: cycle through all sensors (each given by its pre-tiling
`unrotated` and `static orientation` flags and its tiled rotation path) and
back-rotate the rotated ones. -/
def applySensorRots (k_pixel : Nat) : Nat → List (Bool × Bool × List Mat3) →
    List (List (List Vec3)) → List (List (List Vec3))
  | _, [], B => B
  | i, f :: fs, B =>
      applySensorRots k_pixel (i + 1) fs
        (applyOneSensorRot k_pixel i f.1 f.2.1 f.2.2 B)

/-- A numpy ndarray whose last axis has length 3, stored as its full shape and
the row-major list of 3-vectors (the trailing length-3 axis is folded into
`Vec3`, so well-formed arrays satisfy `shape.prod = 3 * data.length`). -/
structure NDArray where
  shape : List Nat
  data : List Vec3
deriving DecidableEq, Repr

/-- `np.sum(B, axis=0)` (line 317): drop the leading axis, summing its equal
chunks of the data pointwise. -/
def NDArray.sumAxis0 (A : NDArray) : NDArray :=
  let s0 := A.shape.headD 1
  let sz := A.data.length / s0
  ⟨A.shape.tail,
   (List.range sz).map (fun c =>
     (List.range s0).foldr (fun i acc => A.data.getD (i * sz + c) 0 + acc) 0)⟩

/-- `np.squeeze(B)` (line 321): eliminate all axes of length 1. -/
def NDArray.squeeze (A : NDArray) : NDArray :=
  ⟨A.shape.filter (· != 1), A.data⟩

/-- The outcome of one evaluation call: the post-call path state of the
flattened elementary sources and of the sensors (Python mutates those objects
in place, so their state is part of the observable behaviour), and the
returned array or raised error. -/
structure EvalResult where
  srcState : List Source
  sensState : List Sensor
  out : Except Err NDArray
deriving Repr

/-- `getBH_level2` (field_wrap_BH_level2.py, lines 97-328): the field
evaluation and broadcasting engine.  Stages, in source order: format the
sources and observers, check pixel-shape consistency, record the sensor
rotation flags, check and reconcile path lengths, tile length-1 paths up to
the common length, build the flat observer-position array, group sources by
family (raising on an unrecognized source), evaluate each group in one batch
and scatter the slices back, sum Collection members, back-rotate rotated
sensors, reshape, optionally sum over sources, optionally squeeze, and reset
the tiled objects. -/
def getBH_level2 (formula : Bool → SrcType → Vec3 → List ℚ → Vec3 → Vec3)
    (bh : Bool) (sources : List SrcEntry) (observers : ObsInput)
    (sumup squeeze : Bool) : EvalResult :=
  -- format input (lines 137-155)
  let src_list := format_obj_input sources
  let sensors := format_observers observers
  -- sensor pixel-shape check (lines 157-165)
  let pix_shapes := sensors.map Sensor.pixShape
  if all_same pix_shapes then
    let pix_shape := pix_shapes.headD []
    -- sensor rotation flags, computed before tiling (lines 167-182)
    let unrot := sensors.map unrotatedSensor
    let statics := sensors.map staticSensorRot
    let l0 := sources.length
    let l := src_list.length
    let k := sensors.length
    -- path check (line 194)
    match get_good_path_length
        (src_list.map (·.pos.length) ++ sensors.map (·.pos.length)) with
    | .error e => ⟨src_list, sensors, .error e⟩
    | .ok m =>
      -- tile length-1 paths up to m (lines 196-203)
      let src_list' := if 1 < m then src_list.map (tileSource m) else src_list
      let sensors' := if 1 < m then sensors.map (tileSensor m) else sensors
      -- flat observer positions (lines 205-213)
      let poso := posoAll sensors' m
      let n := poso.length / m
      -- grouping (lines 215-232): raises on an unrecognized source while the
      -- tiled paths are still in place
      if src_list'.any (fun s => decide (s.typ = SrcType.other)) then
        ⟨src_list', sensors', .error .unrecognizedSource⟩
      else
        -- batched evaluation and scatter (lines 234-279)
        let B := evalAllGroups formula bh src_list' poso m n
        -- sum Collection members (lines 281-288)
        let B1 := if l0 < l then collapseColls m n sources B else B
        -- back-rotate rotated sensors (lines 290-309)
        let k_pixel := pix_shape.dropLast.prod
        let B2 := applySensorRots k_pixel 0
          (unrot.zip (statics.zip (sensors'.map (·.rot)))) B1
        -- reshape to (l0, m, k, N1, ..., 3) (lines 311-313)
        let A0 : NDArray := ⟨[l0, m, k] ++ pix_shape, B2.flatten.flatten⟩
        let A1 := if sumup then A0.sumAxis0 else A0
        let A2 := if squeeze then A1.squeeze else A1
        -- reset tiled objects (lines 323-326)
        let srcF := if 1 < m then List.zipWith resetSource src_list src_list'
          else src_list'
        let sensF := if 1 < m then List.zipWith resetSensor sensors sensors'
          else sensors'
        ⟨srcF, sensF, .ok A2⟩
  else ⟨src_list, sensors, .error .badInputShape⟩

/-- `Collection.getB` (class_Collection.py, lines 125-136): compute the field
of the Collection via the top-level evaluation entry with `sumup=True` (and
the default `squeeze=True`). -/
def Collection_getB (formula : Bool → SrcType → Vec3 → List ℚ → Vec3 → Vec3)
    (col : List Source) (pos_obs : ObsInput) : EvalResult :=
  getBH_level2 formula true [SrcEntry.coll col] pos_obs true true

/-- The legacy `Cube` magnet class (src/_lib/classes/magnets.py): homogeneous
magnetization, dimensions and placement.  The orientation angle is represented
exactly by its cosine and sine. -/
structure Cube where
  magnetization : Vec3
  dimension : Vec3
  position : Vec3
  c : ℚ
  s : ℚ
  axis : Vec3
deriving DecidableEq, Repr

/-- `Cube.getB` (magnets.py, lines 112-143): subtract the source position from
the observer position, rotate the difference into the magnet's coordinate
system with `angleAxisRotation(self.angle, -self.axis, posRel)`, evaluate the
closed-form formula there (`Bfield_Cube`, an external primitive
`formula mag localPos dim`), and rotate the resulting field vector back with
`angleAxisRotation(self.angle, self.axis, BCm)`. -/
def Cube.getB (formula : Vec3 → Vec3 → Vec3 → Vec3) (cube : Cube)
    (pos : Vec3) : Vec3 :=
  let posRel := pos - cube.position
  let p21newCm := angleAxisRotation cube.c cube.s (-cube.axis) posRel
  let BCm := formula cube.magnetization p21newCm cube.dimension
  angleAxisRotation cube.c cube.s cube.axis BCm

/-! ## Generic list lemmas used by the pipeline characterisation -/
/-- Sum of a list of vectors. -/
def vsum (l : List Vec3) : Vec3 := l.foldr (· + ·) 0

/-! ## Characterisation of the grouped, batched evaluation and the scatter -/
/-- Default source used with `List.getD`. -/
def srcDflt : Source := ⟨SrcType.other, 0, [], [], []⟩

/-- The value `getBH_level1` computes for the batch row of source `s` (as a
member of a family-`t` group), path step `j` and flat pixel index `p`. -/
def rowVal (formula : Bool → SrcType → Vec3 → List ℚ → Vec3 → Vec3)
    (bh : Bool) (t : SrcType) (poso : List Vec3) (n : Nat)
    (s : Source) (j p : Nat) : Vec3 :=
  getBH_level1 formula bh t s.ex s.dim (s.rot.getD j Mat3.one)
    (s.pos.getD j 0) (poso.getD (j * n + p) 0)

/-- The `(m, n)` output slice belonging to one source of a family-`t` group. -/
def sliceFor (formula : Bool → SrcType → Vec3 → List ℚ → Vec3 → Vec3)
    (bh : Bool) (t : SrcType) (poso : List Vec3) (m n : Nat)
    (s : Source) : List (List Vec3) :=
  (List.range m).map (fun j =>
    (List.range n).map (fun p => rowVal formula bh t poso n s j p))

/-- Well-formedness of an `(m, n)` slice of the dense tensor. -/
def SliceOK (m n : Nat) (slice : List (List Vec3)) : Prop :=
  slice.length = m ∧ ∀ row ∈ slice, row.length = n

/-! ## Characterisation of Collection summation (lines 281-288) -/
/-- Index in the flattened source list where top-level entry `e` starts. -/
def entryOffset (entries : List SrcEntry) (e : Nat) : Nat :=
  ((entries.take e).map SrcEntry.size).sum

/-! ## Characterisation of the sensor back-rotation (lines 290-309) -/
/-- The back-rotation the pipeline applies to one sensor's values at path step
`j`, as a function of the sensor's flags and rotation path: skip for an
unrotated sensor, one batched inverse rotation (`_rot[0].inv()`) for a static
orientation, the per-step inverse rotation (`_rot[j].inv()`) otherwise. -/
def sensBackRot (unrot staticR : Bool) (rots : List Mat3) (j : Nat)
    (v : Vec3) : Vec3 :=
  if unrot then v
  else if staticR then (rots.headD Mat3.one).inv.apply v
  else (rots.getD j Mat3.one).inv.apply v

/-! ## Observer positions, flattening, and remaining spec-side definitions -/
/-- Default sensor for `List.getD`. -/
def sensDflt : Sensor := ⟨[], [], [], []⟩

/-- The elementary members a top-level entry contributes to the flat list. -/
def SrcEntry.members : SrcEntry → List Source
  | .single s => [s]
  | .coll ms => ms

/-- A source's path state during the evaluation: tiled up to the common length
`m` when `m > 1` (lines 196-203), untouched otherwise. -/
def tiledSrc (m : Nat) (s : Source) : Source :=
  if 1 < m then tileSource m s else s

def tiledSens (m : Nat) (s : Sensor) : Sensor :=
  if 1 < m then tileSensor m s else s

/-- World-frame field of one elementary source at path step `j` and world
observer position `x` (spec section 4.3): what `getBH_level1` returns for that
row of the batch. -/
def worldField (formula : Bool → SrcType → Vec3 → List ℚ → Vec3 → Vec3)
    (bh : Bool) (s : Source) (j : Nat) (x : Vec3) : Vec3 :=
  getBH_level1 formula bh s.typ s.ex s.dim (s.rot.getD j Mat3.one)
    (s.pos.getD j 0) x

/-- World-frame position of pixel `p` of sensor `sens` at path step `j` of the
evaluation (with the sensor's path tiled up to length `m`): rotate the local
pixel offset by that step's orientation and add that step's position. -/
def obsPosAt (m : Nat) (sens : Sensor) (j p : Nat) : Vec3 :=
  ((tiledSens m sens).rot.getD j Mat3.one).apply (sens.pix.getD p 0) +
    (tiledSens m sens).pos.getD j 0

/-! ## Success-path unfolding of the pipeline -/
/-- Lines 316-321: optional summation over sources followed by the optional
squeeze. -/
def postProcess (sumup squeeze : Bool) (A : NDArray) : NDArray :=
  let A1 := if sumup then A.sumAxis0 else A
  if squeeze then A1.squeeze else A1

/-! ## Coherence of the back-rotation flags -/
/-- The array data carried by a successful result (empty on error). -/
def EvalResult.outData (r : EvalResult) : List Vec3 :=
  match r.out with
  | .ok A => A.data
  | .error _ => []

/-! ## Concrete fixtures used by the witnesses -/
def fmlW : Bool → SrcType → Vec3 → List ℚ → Vec3 → Vec3 := fun _ _ _ _ v => v

def boxW : Source := ⟨SrcType.box, ⟨0, 0, 1⟩, [1, 1, 1], [⟨0, 0, 0⟩], [Mat3.one]⟩

def boxBW : Source := ⟨SrcType.box, ⟨0, 0, 1⟩, [1, 1, 1], [⟨1, 0, 0⟩], [Mat3.one]⟩

def dipW : Source := ⟨SrcType.dipole, ⟨0, 0, 1⟩, [], [⟨0, 1, 0⟩], [Mat3.one]⟩

def unkW : Source := ⟨SrcType.other, 0, [], [⟨0, 0, 0⟩], [Mat3.one]⟩

def boxP3W : Source :=
  ⟨SrcType.box, ⟨0, 0, 1⟩, [1, 1, 1], List.replicate 3 0, List.replicate 3 Mat3.one⟩

def boxP5W : Source :=
  ⟨SrcType.box, ⟨0, 0, 1⟩, [1, 1, 1], List.replicate 5 0, List.replicate 5 Mat3.one⟩

def sensW : Sensor := ⟨[], [⟨2, 0, 0⟩], [⟨0, 0, 0⟩], [Mat3.one]⟩

def sensW2 : Sensor :=
  ⟨[], [⟨2, 0, 0⟩], [⟨0, 0, 0⟩, ⟨1, 0, 0⟩], [Mat3.one, Mat3.one]⟩

def rotZW : Mat3 := ⟨⟨0, -1, 0⟩, ⟨1, 0, 0⟩, ⟨0, 0, 1⟩⟩

def sensRW : Sensor := ⟨[], [⟨0, 0, 0⟩], [⟨0, 0, 0⟩], [rotZW]⟩

def sensP11W : Sensor := ⟨[1, 1], [⟨2, 0, 0⟩], [⟨0, 0, 0⟩], [Mat3.one]⟩

/-- The shape of the returned array (empty shape on an error return). -/
def EvalResult.outShape (r : EvalResult) : List Nat :=
  match r.out with
  | .ok A => A.shape
  | .error _ => []

namespace Vec3

@[simp] theorem add_x (a b : Vec3) : (a + b).x = a.x + b.x := rfl

@[simp] theorem add_y (a b : Vec3) : (a + b).y = a.y + b.y := rfl

@[simp] theorem add_z (a b : Vec3) : (a + b).z = a.z + b.z := rfl

@[simp] theorem sub_x (a b : Vec3) : (a - b).x = a.x - b.x := rfl

@[simp] theorem sub_y (a b : Vec3) : (a - b).y = a.y - b.y := rfl

@[simp] theorem sub_z (a b : Vec3) : (a - b).z = a.z - b.z := rfl

@[simp] theorem neg_x (a : Vec3) : (-a).x = -a.x := rfl

@[simp] theorem neg_y (a : Vec3) : (-a).y = -a.y := rfl

@[simp] theorem neg_z (a : Vec3) : (-a).z = -a.z := rfl

@[simp] theorem zero_x : (0 : Vec3).x = 0 := rfl

@[simp] theorem zero_y : (0 : Vec3).y = 0 := rfl

@[simp] theorem zero_z : (0 : Vec3).z = 0 := rfl

@[simp] theorem smul_x (q : ℚ) (a : Vec3) : (smul q a).x = q * a.x := rfl

@[simp] theorem smul_y (q : ℚ) (a : Vec3) : (smul q a).y = q * a.y := rfl

@[simp] theorem smul_z (q : ℚ) (a : Vec3) : (smul q a).z = q * a.z := rfl

theorem add_zero' (a : Vec3) : a + 0 = a := by ext <;> simp

theorem zero_add' (a : Vec3) : 0 + a = a := by ext <;> simp

theorem add_comm' (a b : Vec3) : a + b = b + a := by ext <;> simp <;> ring

theorem add_assoc' (a b c : Vec3) : a + b + c = a + (b + c) := by
  ext <;> simp <;> ring

end Vec3

namespace Mat3

@[simp] theorem one_apply (v : Vec3) : one.apply v = v := by
  ext <;> simp [apply, one, Vec3.dot]

@[simp] theorem one_transpose : one.transpose = one := rfl

@[simp] theorem one_inv : one.inv = one := rfl

theorem apply_add (M : Mat3) (a b : Vec3) :
    M.apply (a + b) = M.apply a + M.apply b := by
  ext <;> simp [apply, Vec3.dot] <;> ring

theorem apply_zero (M : Mat3) : M.apply 0 = 0 := by
  ext <;> simp [apply, Vec3.dot]

end Mat3

/-- Rotating about the negated axis undoes rotating about the axis: for a unit
axis, `angleAxisRotation c s (-a)` is a left inverse of
`angleAxisRotation c s a`.  This is the property the legacy `getB` methods rely
on when they rotate the observer position "into the CS of the magnet (inverse
rotation)" via `angleAxisRotation(self.angle, -self.axis, posRel)`. -/
theorem angleAxisRotation_neg_axis_left_inv (c s : ℚ) (a v : Vec3)
    (hc : c ^ 2 + s ^ 2 = 1) (ha : a.dot a = 1) :
    angleAxisRotation c s (-a) (angleAxisRotation c s a v) = v := by
  have hd : a.x * a.x + a.y * a.y + a.z * a.z = 1 := by
    simpa [Vec3.dot] using ha
  have hcs : c * c + s * s = 1 := by linear_combination hc
  have hu : a.x * v.x + a.y * v.y + a.z * v.z = a.dot v := rfl
  apply Vec3.ext <;>
    simp only [angleAxisRotation, Vec3.dot, Vec3.cross, Vec3.smul,
      Vec3.add_x, Vec3.add_y, Vec3.add_z, Vec3.neg_x, Vec3.neg_y, Vec3.neg_z]
  · linear_combination
      (s ^ 2 * v.x + (1 - c) ^ 2 * (a.x * v.x + a.y * v.y + a.z * v.z) * a.x) * hd +
      (v.x - (a.x * v.x + a.y * v.y + a.z * v.z) * a.x) * hcs
  · linear_combination
      (s ^ 2 * v.y + (1 - c) ^ 2 * (a.x * v.x + a.y * v.y + a.z * v.z) * a.y) * hd +
      (v.y - (a.x * v.x + a.y * v.y + a.z * v.z) * a.y) * hcs
  · linear_combination
      (s ^ 2 * v.z + (1 - c) ^ 2 * (a.x * v.x + a.y * v.y + a.z * v.z) * a.z) * hd +
      (v.z - (a.x * v.x + a.y * v.y + a.z * v.z) * a.z) * hcs

theorem length_flatMap_const {α β : Type} (g : α → List β) (xs : List α)
    (s : Nat) (h : ∀ x ∈ xs, (g x).length = s) :
    (xs.flatMap g).length = xs.length * s := by
  induction xs with
  | nil => simp
  | cons a l ih =>
      simp only [List.flatMap_cons, List.length_append, List.length_cons]
      rw [h a (by simp), ih (fun x hx => h x (by simp [hx]))]
      ring

theorem getD_flatMap_const {α β : Type} (g : α → List β) (xs : List α)
    (s i j : Nat) (d : β) (x₀ : α)
    (h : ∀ x ∈ xs, (g x).length = s) (hi : i < xs.length) (hj : j < s) :
    (xs.flatMap g).getD (i * s + j) d = (g (xs.getD i x₀)).getD j d := by
  induction xs generalizing i with
  | nil => simp at hi
  | cons a l ih =>
      cases i with
      | zero =>
          have hlen : (g a).length = s := h a (by simp)
          simp only [List.flatMap_cons, Nat.zero_mul, Nat.zero_add, List.getD_cons_zero]
          rw [List.getD_eq_getElem?_getD, List.getElem?_append_left (by omega),
            ← List.getD_eq_getElem?_getD]
      | succ i' =>
          have hlen : (g a).length = s := h a (by simp)
          simp only [List.flatMap_cons]
          have hidx : (i' + 1) * s + j = (g a).length + (i' * s + j) := by
            rw [hlen]; ring
          rw [List.getD_eq_getElem?_getD, hidx, List.getElem?_append_right (by omega)]
          simp only [Nat.add_sub_cancel_left]
          rw [← List.getD_eq_getElem?_getD, List.getD_cons_succ]
          exact ih i' (fun x hx => h x (by simp [hx])) (by simpa using hi)

theorem getD_map_range {β : Type} (f : Nat → β) (k i : Nat) (d : β)
    (hi : i < k) : ((List.range k).map f).getD i d = f i := by
  rw [List.getD_eq_getElem?_getD, List.getElem?_map]
  simp [List.getElem?_range hi]

theorem getD_map {α β : Type} (f : α → β) (l : List α) (i : Nat) (d : β)
    (d' : α) (hi : i < l.length) :
    (l.map f).getD i d = f (l.getD i d') := by
  rw [List.getD_eq_getElem?_getD, List.getElem?_map,
    List.getD_eq_getElem?_getD, List.getElem?_eq_getElem hi]
  simp

theorem getD_out_of_range {α : Type} (l : List α) (i : Nat) (d : α)
    (hi : l.length ≤ i) : l.getD i d = d := by
  rw [List.getD_eq_getElem?_getD, List.getElem?_eq_none (by omega)]
  rfl

theorem getD_mapIdxFrom {α β : Type} (f : Nat → α → β) (i0 j : Nat)
    (l : List α) (d : β) (d' : α) (hj : j < l.length) :
    (mapIdxFrom f i0 l).getD j d = f (i0 + j) (l.getD j d') := by
  induction l generalizing i0 j with
  | nil => simp at hj
  | cons a t ih =>
      cases j with
      | zero => simp [mapIdxFrom]
      | succ j' =>
          simp only [mapIdxFrom, List.getD_cons_succ]
          rw [ih (i0 + 1) j' (by simpa using hj)]
          congr 1
          omega

theorem length_mapIdxFrom {α β : Type} (f : Nat → α → β) (i0 : Nat)
    (l : List α) : (mapIdxFrom f i0 l).length = l.length := by
  induction l generalizing i0 with
  | nil => rfl
  | cons a t ih => simp [mapIdxFrom, ih]

theorem getD_range (k i d : Nat) (hi : i < k) : (List.range k).getD i d = i := by
  rw [List.getD_eq_getElem?_getD, List.getElem?_range hi]; rfl

theorem getD_set_ne {α : Type} (l : List α) (a i : Nat) (v d : α)
    (h : a ≠ i) : (l.set a v).getD i d = l.getD i d := by
  rw [List.getD_eq_getElem?_getD, List.getD_eq_getElem?_getD,
    List.getElem?_set_ne h]

theorem getD_set_self {α : Type} (l : List α) (i : Nat) (v d : α)
    (h : i < l.length) : (l.set i v).getD i d = v := by
  rw [List.getD_eq_getElem?_getD, List.getElem?_set_self h]; rfl

theorem scatterGroup_cons (B : List (List (List Vec3)))
    (p : Nat × List (List Vec3)) (ps : List (Nat × List (List Vec3))) :
    scatterGroup B (p :: ps) = scatterGroup (B.set p.1 p.2) ps := rfl

theorem length_scatterGroup (B : List (List (List Vec3)))
    (pairs : List (Nat × List (List Vec3))) :
    (scatterGroup B pairs).length = B.length := by
  induction pairs generalizing B with
  | nil => rfl
  | cons p ps ih => rw [scatterGroup_cons, ih, List.length_set]

theorem scatterGroup_getD_not_mem (B : List (List (List Vec3)))
    (pairs : List (Nat × List (List Vec3))) (i : Nat) (d : List (List Vec3))
    (h : ∀ p ∈ pairs, p.1 ≠ i) :
    (scatterGroup B pairs).getD i d = B.getD i d := by
  induction pairs generalizing B with
  | nil => rfl
  | cons p ps ih =>
      rw [scatterGroup_cons, ih _ (fun q hq => h q (by simp [hq])),
        getD_set_ne _ _ _ _ _ (h p (by simp))]

theorem scatterGroup_getD_mem (B : List (List (List Vec3)))
    (pairs : List (Nat × List (List Vec3))) (i : Nat)
    (v : List (List Vec3)) (d : List (List Vec3))
    (hnd : (pairs.map Prod.fst).Nodup) (hmem : (i, v) ∈ pairs)
    (hi : i < B.length) :
    (scatterGroup B pairs).getD i d = v := by
  induction pairs generalizing B with
  | nil => simp at hmem
  | cons p ps ih =>
      simp only [List.map_cons, List.nodup_cons] at hnd
      rcases List.mem_cons.mp hmem with heq | hmem'
      · have hp1 : p.1 = i := by rw [← heq]
        have hp2 : p.2 = v := by rw [← heq]
        rw [scatterGroup_cons,
          scatterGroup_getD_not_mem _ _ _ _ (fun q hq hqi => hnd.1 (by
            rw [hp1, ← hqi]
            exact List.mem_map_of_mem Prod.fst hq))]
        rw [hp1, hp2]
        exact getD_set_self B i v d hi
      · rw [scatterGroup_cons]
        exact ih _ hnd.2 hmem' (by rw [List.length_set]; exact hi)

theorem groupPairs_mem_iff (t : SrcType) (l : List Source) (i : Nat)
    (s : Source) :
    (i, s) ∈ groupPairs t l ↔ l[i]? = some s ∧ s.typ = t := by
  simp [groupPairs, List.mem_filter, List.mem_enum_iff_getElem?]

theorem groupPairs_nodup_fst (t : SrcType) (l : List Source) :
    ((groupPairs t l).map Prod.fst).Nodup := by
  have hsub : ((groupPairs t l).map Prod.fst).Sublist (l.enum.map Prod.fst) :=
    (List.filter_sublist l.enum).map Prod.fst
  rw [List.enum_map_fst] at hsub
  exact hsub.nodup (List.nodup_range l.length)

theorem length_scr_dict_rows (group : List Source) (poso : List Vec3)
    (m n : Nat) :
    (scr_dict_rows group poso m n).length = group.length * (m * n) := by
  apply length_flatMap_const
  intro s _
  rw [length_flatMap_const _ _ n (by intro j _; simp)]
  simp

theorem reshape3_rows (formula : Bool → SrcType → Vec3 → List ℚ → Vec3 → Vec3)
    (bh : Bool) (t : SrcType) (group : List Source) (poso : List Vec3)
    (m n : Nat) :
    reshape3 group.length m n
      ((scr_dict_rows group poso m n).map
        (fun r => getBH_level1 formula bh t r.ex r.dim r.rot r.pos r.pos_obs)) =
      group.map (sliceFor formula bh t poso m n) := by
  apply List.ext_getElem (by simp [reshape3])
  intro i h1 h2
  have hig : i < group.length := by simpa using h2
  simp only [reshape3, List.getElem_map, List.getElem_range] at h1 h2 ⊢
  apply List.map_congr_left
  intro j hj
  rw [List.mem_range] at hj
  apply List.map_congr_left
  intro p hp
  rw [List.mem_range] at hp
  have hlen1 : ∀ s ∈ group,
      ((List.range m).flatMap (fun j => (List.range n).map (fun p =>
        (⟨s.ex, s.dim, s.rot.getD j Mat3.one, s.pos.getD j 0,
          poso.getD (j * n + p) 0⟩ : BatchRow)))).length = m * n := by
    intro s _
    rw [length_flatMap_const _ _ n (by intro x _; simp)]
    simp
  have hjn : j * n + p < m * n := by
    calc j * n + p < j * n + n := by omega
    _ = (j + 1) * n := by ring
    _ ≤ m * n := Nat.mul_le_mul_right n (by omega)
  have hidx : i * (m * n) + j * n + p < (scr_dict_rows group poso m n).length := by
    rw [length_scr_dict_rows]
    calc i * (m * n) + j * n + p < i * (m * n) + m * n := by omega
    _ = (i + 1) * (m * n) := by ring
    _ ≤ group.length * (m * n) := Nat.mul_le_mul_right (m * n) (by omega)
  rw [getD_map _ _ _ _ ⟨0, [], Mat3.one, 0, 0⟩ hidx]
  have hfm : i * (m * n) + j * n + p = i * (m * n) + (j * n + p) := by ring
  rw [hfm]
  unfold scr_dict_rows
  rw [getD_flatMap_const _ group (m * n) i (j * n + p) _ srcDflt hlen1 hig hjn]
  rw [getD_flatMap_const _ (List.range m) n j p _ 0
    (by intro x _; simp) (by simpa using hj) hp]
  rw [getD_range m j 0 hj]
  rw [getD_map_range _ n p _ hp]
  have hsg : group[i] = group.getD i srcDflt := by
    rw [List.getD_eq_getElem?_getD, List.getElem?_eq_getElem hig]
    rfl
  rw [← hsg]
  rfl

theorem evalGroup_eq_map (formula : Bool → SrcType → Vec3 → List ℚ → Vec3 → Vec3)
    (bh : Bool) (t : SrcType) (src_list : List Source) (poso : List Vec3)
    (m n : Nat) :
    evalGroup formula bh t src_list poso m n =
      (groupPairs t src_list).map
        (fun p => (p.1, sliceFor formula bh t poso m n p.2)) := by
  simp only [evalGroup]
  rw [reshape3_rows, List.map_map, List.zip_map']
  rfl

theorem groupPairs_fst_ne (t : SrcType) (src_list : List Source) (i : Nat)
    (ht : (src_list.getD i srcDflt).typ ≠ t) :
    ∀ q ∈ groupPairs t src_list, q.1 ≠ i := by
  rintro ⟨a, s⟩ hq hqi
  rw [groupPairs_mem_iff] at hq
  simp only at hqi
  subst hqi
  apply ht
  have hgd : src_list.getD a srcDflt = s := by
    rw [List.getD_eq_getElem?_getD, hq.1]; rfl
  rw [hgd]
  exact hq.2

theorem scatterFold_getD_not_mem
    (formula : Bool → SrcType → Vec3 → List ℚ → Vec3 → Vec3) (bh : Bool)
    (src_list : List Source) (poso : List Vec3) (m n : Nat)
    (ts : List SrcType) (B : List (List (List Vec3))) (i : Nat)
    (hnotin : (src_list.getD i srcDflt).typ ∉ ts) :
    (ts.foldl (fun B t =>
      scatterGroup B (evalGroup formula bh t src_list poso m n)) B).getD i [] =
      B.getD i [] := by
  induction ts generalizing B with
  | nil => rfl
  | cons t ts' ih =>
      rw [List.foldl_cons, ih _ (fun hmem => hnotin (List.mem_cons_of_mem t hmem))]
      apply scatterGroup_getD_not_mem
      rw [evalGroup_eq_map]
      intro p hp
      rcases List.mem_map.mp hp with ⟨q, hq, rfl⟩
      exact groupPairs_fst_ne t src_list i
        (fun h => hnotin (by rw [h]; exact List.mem_cons_self t ts')) q hq

theorem scatterFold_getD_mem
    (formula : Bool → SrcType → Vec3 → List ℚ → Vec3 → Vec3) (bh : Bool)
    (src_list : List Source) (poso : List Vec3) (m n : Nat)
    (ts : List SrcType) (B : List (List (List Vec3))) (i : Nat)
    (hlen : B.length = src_list.length) (hi : i < src_list.length)
    (hnd : ts.Nodup) (hmem : (src_list.getD i srcDflt).typ ∈ ts) :
    (ts.foldl (fun B t =>
      scatterGroup B (evalGroup formula bh t src_list poso m n)) B).getD i [] =
      sliceFor formula bh (src_list.getD i srcDflt).typ poso m n
        (src_list.getD i srcDflt) := by
  induction ts generalizing B with
  | nil => simp at hmem
  | cons t ts' ih =>
      rw [List.foldl_cons]
      rw [List.nodup_cons] at hnd
      by_cases h : (src_list.getD i srcDflt).typ = t
      · rw [scatterFold_getD_not_mem formula bh src_list poso m n ts' _ i
          (fun hmem' => hnd.1 (h ▸ hmem'))]
        rw [evalGroup_eq_map]
        apply scatterGroup_getD_mem
        · rw [List.map_map]
          have hcomp : (Prod.fst ∘ fun p : Nat × Source =>
              (p.1, sliceFor formula bh t poso m n p.2)) = Prod.fst := rfl
          rw [hcomp]
          exact groupPairs_nodup_fst t src_list
        · apply List.mem_map.mpr
          refine ⟨(i, src_list.getD i srcDflt), ?_, by rw [h]⟩
          rw [groupPairs_mem_iff]
          refine ⟨?_, h⟩
          rw [List.getD_eq_getElem?_getD, List.getElem?_eq_getElem hi]
          rfl
        · rw [hlen]; exact hi
      · rcases List.mem_cons.mp hmem with hbad | hmem'
        · exact absurd hbad h
        · exact ih _ (by rw [length_scatterGroup]; exact hlen) hnd.2 hmem'

theorem length_evalAllGroups
    (formula : Bool → SrcType → Vec3 → List ℚ → Vec3 → Vec3) (bh : Bool)
    (src_list : List Source) (poso : List Vec3) (m n : Nat) :
    (evalAllGroups formula bh src_list poso m n).length = src_list.length := by
  unfold evalAllGroups
  simp only [List.foldl_cons, List.foldl_nil, length_scatterGroup]
  simp

theorem evalAllGroups_getD
    (formula : Bool → SrcType → Vec3 → List ℚ → Vec3 → Vec3) (bh : Bool)
    (src_list : List Source) (poso : List Vec3) (m n : Nat) (i : Nat)
    (hi : i < src_list.length)
    (ht : (src_list.getD i srcDflt).typ ≠ SrcType.other) :
    (evalAllGroups formula bh src_list poso m n).getD i [] =
      sliceFor formula bh (src_list.getD i srcDflt).typ poso m n
        (src_list.getD i srcDflt) := by
  unfold evalAllGroups
  apply scatterFold_getD_mem
  · simp
  · exact hi
  · decide
  · cases htyp : (src_list.getD i srcDflt).typ <;> simp_all

theorem sliceOK_sliceFor (formula : Bool → SrcType → Vec3 → List ℚ → Vec3 → Vec3)
    (bh : Bool) (t : SrcType) (poso : List Vec3) (m n : Nat) (s : Source) :
    SliceOK m n (sliceFor formula bh t poso m n s) := by
  constructor
  · simp [sliceFor]
  · intro row hrow
    rcases List.mem_map.mp hrow with ⟨j, _, rfl⟩
    simp

theorem scatterGroup_sliceOK (m n : Nat) (B : List (List (List Vec3)))
    (pairs : List (Nat × List (List Vec3)))
    (hB : ∀ x ∈ B, SliceOK m n x) (hp : ∀ p ∈ pairs, SliceOK m n p.2) :
    ∀ x ∈ scatterGroup B pairs, SliceOK m n x := by
  induction pairs generalizing B with
  | nil => exact hB
  | cons p ps ih =>
      rw [scatterGroup_cons]
      apply ih
      · intro x hx
        rcases List.mem_or_eq_of_mem_set hx with hx' | rfl
        · exact hB x hx'
        · exact hp p (by simp)
      · intro q hq
        exact hp q (by simp [hq])

theorem evalAllGroups_sliceOK
    (formula : Bool → SrcType → Vec3 → List ℚ → Vec3 → Vec3) (bh : Bool)
    (src_list : List Source) (poso : List Vec3) (m n : Nat) :
    ∀ x ∈ evalAllGroups formula bh src_list poso m n, SliceOK m n x := by
  unfold evalAllGroups
  simp only [List.foldl_cons, List.foldl_nil]
  have hpairs : ∀ t (B : List (List (List Vec3))), (∀ x ∈ B, SliceOK m n x) →
      ∀ x ∈ scatterGroup B (evalGroup formula bh t src_list poso m n),
        SliceOK m n x := by
    intro t B hB
    apply scatterGroup_sliceOK m n B _ hB
    rw [evalGroup_eq_map]
    intro p hp
    rcases List.mem_map.mp hp with ⟨q, _, rfl⟩
    exact sliceOK_sliceFor formula bh t poso m n q.2
  apply hpairs
  apply hpairs
  apply hpairs
  apply hpairs
  intro x hx
  rcases List.mem_map.mp hx with ⟨j, _, rfl⟩
  constructor
  · simp
  · intro row hrow
    rcases List.mem_map.mp hrow with ⟨p, _, rfl⟩
    simp

theorem getD_tail {α : Type} (l : List α) (i : Nat) (d : α) :
    l.tail.getD i d = l.getD (i + 1) d := by
  cases l with
  | nil => rfl
  | cons a t => rfl

theorem getD_drop {α : Type} (l : List α) (k i : Nat) (d : α) :
    (l.drop k).getD i d = l.getD (k + i) d := by
  rw [List.getD_eq_getElem?_getD, List.getD_eq_getElem?_getD,
    List.getElem?_drop]

theorem headD_eq_getD {α : Type} (l : List α) (d : α) :
    l.headD d = l.getD 0 d := by
  cases l with
  | nil => rfl
  | cons a t => rfl

theorem collapseColls_getD_single (m n : Nat) (entries : List SrcEntry)
    (B : List (List (List Vec3))) (e : Nat) (s : Source)
    (hs : entries.getD e (SrcEntry.single srcDflt) = SrcEntry.single s)
    (he : e < entries.length) :
    (collapseColls m n entries B).getD e (zeroSlice m n) =
      B.getD (entryOffset entries e) (zeroSlice m n) := by
  induction entries generalizing e B with
  | nil => simp at he
  | cons ent es ih =>
      cases e with
      | zero =>
          rw [List.getD_cons_zero] at hs
          subst hs
          simp only [collapseColls, List.getD_cons_zero, entryOffset,
            List.take_zero, List.map_nil, List.sum_nil]
          rw [headD_eq_getD]
      | succ e' =>
          rw [List.getD_cons_succ] at hs
          have he' : e' < es.length := by simpa using he
          have hoff : entryOffset (ent :: es) (e' + 1) =
              ent.size + entryOffset es e' := by
            simp [entryOffset, List.take_succ_cons]
          cases ent with
          | single s0 =>
              simp only [collapseColls, List.getD_cons_succ]
              rw [ih B.tail e' hs he', hoff]
              rw [getD_tail]
              congr 1
              simp only [SrcEntry.size]
              omega
          | coll ms =>
              simp only [collapseColls, List.getD_cons_succ]
              rw [ih (B.drop ms.length) e' hs he', hoff]
              rw [getD_drop]
              rfl

theorem collapseColls_getD_coll (m n : Nat) (entries : List SrcEntry)
    (B : List (List (List Vec3))) (e : Nat) (ms : List Source)
    (hs : entries.getD e (SrcEntry.single srcDflt) = SrcEntry.coll ms)
    (he : e < entries.length) :
    (collapseColls m n entries B).getD e (zeroSlice m n) =
      sumSlices m n ((B.drop (entryOffset entries e)).take ms.length) := by
  induction entries generalizing e B with
  | nil => simp at he
  | cons ent es ih =>
      cases e with
      | zero =>
          rw [List.getD_cons_zero] at hs
          subst hs
          simp only [collapseColls, List.getD_cons_zero, entryOffset,
            List.take_zero, List.map_nil, List.sum_nil, List.drop_zero]
      | succ e' =>
          rw [List.getD_cons_succ] at hs
          have he' : e' < es.length := by simpa using he
          have hoff : entryOffset (ent :: es) (e' + 1) =
              ent.size + entryOffset es e' := by
            simp [entryOffset, List.take_succ_cons]
          cases ent with
          | single s0 =>
              simp only [collapseColls, List.getD_cons_succ]
              rw [ih B.tail e' hs he', hoff]
              have : B.tail.drop (entryOffset es e') =
                  B.drop (SrcEntry.size (SrcEntry.single s0) + entryOffset es e') := by
                rw [← List.drop_one, List.drop_drop]
                congr 1
              rw [this]
          | coll ms0 =>
              simp only [collapseColls, List.getD_cons_succ]
              rw [ih (B.drop ms0.length) e' hs he', hoff]
              rw [List.drop_drop]
              have hsz : ms0.length + entryOffset es e' =
                  SrcEntry.size (SrcEntry.coll ms0) + entryOffset es e' := by
                simp only [SrcEntry.size]
              rw [hsz]

theorem length_collapseColls (m n : Nat) (entries : List SrcEntry)
    (B : List (List (List Vec3)))
    (hB : B.length = (entries.map SrcEntry.size).sum) :
    (collapseColls m n entries B).length = entries.length := by
  induction entries generalizing B with
  | nil =>
      simp only [List.map_nil, List.sum_nil] at hB
      simp [collapseColls, List.length_eq_zero.mp hB]
  | cons ent es ih =>
      cases ent with
      | single s0 =>
          simp only [collapseColls, List.length_cons]
          rw [ih B.tail (by
            simp only [List.map_cons, List.sum_cons, SrcEntry.size] at hB
            simp only [List.length_tail, hB]
            omega)]
      | coll ms =>
          simp only [collapseColls, List.length_cons]
          rw [ih (B.drop ms.length) (by
            simp only [List.map_cons, List.sum_cons, SrcEntry.size] at hB
            simp only [List.length_drop, hB]
            omega)]

theorem getD_zipWith {α : Type} (f : α → α → α) :
    ∀ (A B : List α) (i : Nat) (d : α), i < A.length → i < B.length →
      (List.zipWith f A B).getD i d = f (A.getD i d) (B.getD i d)
  | [], _, _, _, hA, _ => absurd hA (by simp)
  | _ :: _, [], _, _, _, hB => absurd hB (by simp)
  | a :: A', b :: B', 0, d, _, _ => rfl
  | a :: A', b :: B', (i + 1), d, hA, hB => by
      simp only [List.zipWith_cons_cons, List.getD_cons_succ]
      exact getD_zipWith f A' B' i d (by simpa using hA) (by simpa using hB)

theorem zeroSlice_getD (m n j p : Nat) (hj : j < m) (hp : p < n) :
    (((zeroSlice m n).getD j []).getD p 0) = 0 := by
  unfold zeroSlice
  rw [getD_map_range _ m j _ hj, getD_map_range _ n p _ hp]

theorem sliceOK_zeroSlice (m n : Nat) : SliceOK m n (zeroSlice m n) := by
  constructor
  · simp [zeroSlice]
  · intro row hrow
    rcases List.mem_map.mp hrow with ⟨j, _, rfl⟩
    simp

theorem sliceOK_addSlice (m n : Nat) (A B : List (List Vec3))
    (hA : SliceOK m n A) (hB : SliceOK m n B) : SliceOK m n (addSlice A B) := by
  have hadd : addSlice A B = List.zipWith (List.zipWith (· + ·)) A B := rfl
  constructor
  · rw [hadd, List.length_zipWith, hA.1, hB.1]
    simp
  · intro row hrow
    rw [hadd, List.mem_iff_getElem] at hrow
    rcases hrow with ⟨i, hi, rfl⟩
    rw [List.length_zipWith] at hi
    have hiA : i < A.length := (lt_min_iff.mp hi).1
    have hiB : i < B.length := (lt_min_iff.mp hi).2
    rw [List.getElem_zipWith, List.length_zipWith,
      hA.2 A[i] (A.getElem_mem hiA), hB.2 B[i] (B.getElem_mem hiB)]
    simp

theorem sliceOK_sumSlices (m n : Nat) (slices : List (List (List Vec3)))
    (hok : ∀ x ∈ slices, SliceOK m n x) : SliceOK m n (sumSlices m n slices) := by
  induction slices with
  | nil => exact sliceOK_zeroSlice m n
  | cons s ss ih =>
      rw [sumSlices, List.foldr_cons]
      exact sliceOK_addSlice m n s _ (hok s (by simp))
        (ih (fun x hx => hok x (by simp [hx])))

theorem sumSlices_getD (m n : Nat) (slices : List (List (List Vec3)))
    (hok : ∀ x ∈ slices, SliceOK m n x) (j p : Nat) (hj : j < m) (hp : p < n) :
    ((sumSlices m n slices).getD j []).getD p 0 =
      vsum (slices.map (fun sl => (sl.getD j []).getD p 0)) := by
  induction slices with
  | nil =>
      simp only [sumSlices, List.foldr_nil, List.map_nil, vsum]
      exact zeroSlice_getD m n j p hj hp
  | cons s ss ih =>
      have hs := hok s (by simp)
      have hss := sliceOK_sumSlices m n ss (fun x hx => hok x (by simp [hx]))
      have hcons : sumSlices m n (s :: ss) = addSlice s (sumSlices m n ss) := rfl
      rw [hcons]
      have h1 : (addSlice s (sumSlices m n ss)).getD j [] =
          List.zipWith (· + ·) (s.getD j []) ((sumSlices m n ss).getD j []) :=
        getD_zipWith _ s _ j [] (by rw [hs.1]; exact hj)
          (by rw [hss.1]; exact hj)
      rw [h1]
      have hrow1 : j < s.length := by rw [hs.1]; exact hj
      have hrow2 : j < (sumSlices m n ss).length := by rw [hss.1]; exact hj
      have hn1 : p < (s.getD j []).length := by
        rw [hs.2 (s.getD j []) (by
          rw [List.getD_eq_getElem?_getD, List.getElem?_eq_getElem hrow1]
          exact s.getElem_mem hrow1)]
        exact hp
      have hn2 : p < ((sumSlices m n ss).getD j []).length := by
        rw [hss.2 ((sumSlices m n ss).getD j []) (by
          rw [List.getD_eq_getElem?_getD, List.getElem?_eq_getElem hrow2]
          exact (sumSlices m n ss).getElem_mem hrow2)]
        exact hp
      rw [getD_zipWith _ _ _ p 0 hn1 hn2, ih (fun x hx => hok x (by simp [hx]))]
      simp [vsum]

theorem sensBackRot_zero (u st : Bool) (rots : List Mat3) (j : Nat) :
    sensBackRot u st rots j 0 = 0 := by
  unfold sensBackRot
  split
  · rfl
  split <;> exact Mat3.apply_zero _

theorem getD_map_pres {α β : Type} (f : α → β) (l : List α) (i : Nat)
    (dα : α) (dβ : β) (hd : f dα = dβ) :
    (l.map f).getD i dβ = f (l.getD i dα) := by
  by_cases h : i < l.length
  · exact getD_map f l i dβ dα h
  · rw [getD_out_of_range _ _ _ (by rw [List.length_map]; omega),
      getD_out_of_range _ _ _ (by omega), hd]

theorem getD_mapIdxFrom_pres {α β : Type} (f : Nat → α → β) (l : List α)
    (i : Nat) (dα : α) (dβ : β) (hd : f i dα = dβ) :
    (mapIdxFrom f 0 l).getD i dβ = f i (l.getD i dα) := by
  by_cases h : i < l.length
  · rw [getD_mapIdxFrom f 0 i l dβ dα h, Nat.zero_add]
  · rw [getD_out_of_range _ _ _ (by rw [length_mapIdxFrom]; omega),
      getD_out_of_range _ _ _ (by omega), hd]

theorem applyOneSensorRot_getD (kp i : Nat) (u st : Bool) (rots : List Mat3)
    (B : List (List (List Vec3))) (e j c : Nat) :
    (((applyOneSensorRot kp i u st rots B).getD e []).getD j []).getD c 0 =
      if i * kp ≤ c ∧ c < (i + 1) * kp then
        sensBackRot u st rots j (((B.getD e []).getD j []).getD c 0)
      else ((B.getD e []).getD j []).getD c 0 := by
  cases u with
  | true => simp [applyOneSensorRot, sensBackRot]
  | false =>
      cases st with
      | true =>
          have h1 : applyOneSensorRot kp i false true rots B =
              B.map (fun slice => slice.map (fun row =>
                mapIdxFrom (fun c v =>
                  if i * kp ≤ c ∧ c < (i + 1) * kp then
                    (rots.headD Mat3.one).inv.apply v
                  else v) 0 row)) := rfl
          rw [h1, getD_map_pres _ _ _ [] [] rfl, getD_map_pres _ _ _ [] [] rfl,
            getD_mapIdxFrom_pres _ _ _ 0 0 (by
              by_cases hc : i * kp ≤ c ∧ c < (i + 1) * kp
              · rw [if_pos hc]; exact Mat3.apply_zero _
              · rw [if_neg hc])]
          by_cases hc : i * kp ≤ c ∧ c < (i + 1) * kp
          · rw [if_pos hc, if_pos hc]; rfl
          · rw [if_neg hc, if_neg hc]
      | false =>
          have h1 : applyOneSensorRot kp i false false rots B =
              B.map (fun slice =>
                mapIdxFrom (fun j row =>
                  mapIdxFrom (fun c v =>
                    if i * kp ≤ c ∧ c < (i + 1) * kp then
                      (rots.getD j Mat3.one).inv.apply v
                    else v) 0 row) 0 slice) := rfl
          rw [h1, getD_map_pres _ _ _ [] [] rfl,
            getD_mapIdxFrom_pres _ _ _ [] [] rfl,
            getD_mapIdxFrom_pres _ _ _ 0 0 (by
              by_cases hc : i * kp ≤ c ∧ c < (i + 1) * kp
              · rw [if_pos hc]; exact Mat3.apply_zero _
              · rw [if_neg hc])]
          by_cases hc : i * kp ≤ c ∧ c < (i + 1) * kp
          · rw [if_pos hc, if_pos hc]; rfl
          · rw [if_neg hc, if_neg hc]

theorem applySensorRots_cons (kp i0 : Nat) (f : Bool × Bool × List Mat3)
    (fs : List (Bool × Bool × List Mat3)) (B : List (List (List Vec3))) :
    applySensorRots kp i0 (f :: fs) B =
      applySensorRots kp (i0 + 1) fs
        (applyOneSensorRot kp i0 f.1 f.2.1 f.2.2 B) := rfl

theorem applySensorRots_getD_below (kp : Nat)
    (fs : List (Bool × Bool × List Mat3)) (i0 : Nat)
    (B : List (List (List Vec3))) (e j c : Nat) (hc : c < i0 * kp) :
    (((applySensorRots kp i0 fs B).getD e []).getD j []).getD c 0 =
      ((B.getD e []).getD j []).getD c 0 := by
  induction fs generalizing i0 B with
  | nil => rfl
  | cons f fs' ih =>
      rw [applySensorRots_cons,
        ih (i0 + 1) _ (lt_of_lt_of_le hc (Nat.mul_le_mul_right kp (by omega))),
        applyOneSensorRot_getD,
        if_neg (fun h => absurd h.1 (not_le.mpr hc))]

theorem applySensorRots_getD_mem (kp : Nat)
    (fs : List (Bool × Bool × List Mat3)) (i0 q : Nat)
    (B : List (List (List Vec3))) (e j c : Nat) (hq : q < fs.length)
    (hlo : (i0 + q) * kp ≤ c) (hhi : c < (i0 + q + 1) * kp) :
    (((applySensorRots kp i0 fs B).getD e []).getD j []).getD c 0 =
      sensBackRot (fs.getD q (true, true, [])).1
        (fs.getD q (true, true, [])).2.1
        (fs.getD q (true, true, [])).2.2 j
        (((B.getD e []).getD j []).getD c 0) := by
  induction fs generalizing i0 q B with
  | nil => simp at hq
  | cons f fs' ih =>
      cases q with
      | zero =>
          rw [applySensorRots_cons,
            applySensorRots_getD_below kp fs' (i0 + 1) _ e j c
              (by simpa using hhi),
            applyOneSensorRot_getD,
            if_pos ⟨by simpa using hlo, by simpa using hhi⟩]
          rfl
      | succ q' =>
          rw [applySensorRots_cons]
          have heq1 : i0 + 1 + q' = i0 + (q' + 1) := by omega
          have hlo' : (i0 + 1 + q') * kp ≤ c := by rw [heq1]; exact hlo
          have hhi' : c < (i0 + 1 + q' + 1) * kp := by
            have heq2 : i0 + 1 + q' + 1 = i0 + (q' + 1) + 1 := by omega
            rw [heq2]; exact hhi
          rw [ih (i0 + 1) q' _ (by simpa using hq) hlo' hhi',
            applyOneSensorRot_getD,
            if_neg (fun h => absurd h.2 (not_lt.mpr (le_trans
              (Nat.mul_le_mul_right kp (by omega)) hlo)))]
          rfl

theorem tileSource_typ (m : Nat) (s : Source) : (tileSource m s).typ = s.typ := by
  unfold tileSource
  split <;> rfl

theorem tileSensor_pix (m : Nat) (s : Sensor) : (tileSensor m s).pix = s.pix := by
  unfold tileSensor
  split <;> rfl

theorem length_sensPoso (s : Sensor) (j : Nat) :
    (sensPoso s j).length = s.pix.length := by
  simp [sensPoso]

theorem length_posoAll (sensors : List Sensor) (m npix : Nat)
    (hpix : ∀ s ∈ sensors, s.pix.length = npix) :
    (posoAll sensors m).length = m * (sensors.length * npix) := by
  unfold posoAll
  rw [length_flatMap_const _ (List.range m) (sensors.length * npix)
    (fun j _ => length_flatMap_const _ sensors npix
      (fun s hs => by rw [length_sensPoso]; exact hpix s hs))]
  simp

theorem posoAll_getD (sensors : List Sensor) (m npix j i p : Nat)
    (hpix : ∀ s ∈ sensors, s.pix.length = npix)
    (hj : j < m) (hi : i < sensors.length) (hp : p < npix) :
    (posoAll sensors m).getD (j * (sensors.length * npix) + (i * npix + p)) 0 =
      ((sensors.getD i sensDflt).rot.getD j Mat3.one).apply
        ((sensors.getD i sensDflt).pix.getD p 0) +
      (sensors.getD i sensDflt).pos.getD j 0 := by
  unfold posoAll
  have hinlen : ∀ x ∈ List.range m,
      (sensors.flatMap (fun s => sensPoso s x)).length =
        sensors.length * npix := by
    intro x _
    exact length_flatMap_const _ sensors npix
      (fun s hs => by rw [length_sensPoso]; exact hpix s hs)
  have hc : i * npix + p < sensors.length * npix := by
    calc i * npix + p < i * npix + npix := by omega
    _ = (i + 1) * npix := by ring
    _ ≤ sensors.length * npix := Nat.mul_le_mul_right npix (by omega)
  rw [getD_flatMap_const _ (List.range m) (sensors.length * npix) j
    (i * npix + p) _ 0 hinlen (by simpa using hj) hc]
  rw [getD_range m j 0 hj]
  rw [getD_flatMap_const _ sensors npix i p _ sensDflt
    (fun s hs => by rw [length_sensPoso]; exact hpix s hs) hi hp]
  unfold sensPoso
  rw [getD_map _ _ _ _ 0 (by
    rw [hpix _ (by
      rw [List.getD_eq_getElem?_getD, List.getElem?_eq_getElem hi]
      exact sensors.getElem_mem hi)]
    exact hp)]

theorem length_flatten_const {α : Type} (L : List (List α)) (s : Nat)
    (h : ∀ x ∈ L, x.length = s) : L.flatten.length = L.length * s := by
  induction L with
  | nil => simp
  | cons a l ih =>
      simp only [List.flatten_cons, List.length_append, List.length_cons]
      rw [h a (by simp), ih (fun x hx => h x (by simp [hx]))]
      ring

theorem getD_flatten_const {α : Type} (L : List (List α)) (s i j : Nat)
    (d : α) (h : ∀ x ∈ L, x.length = s) (hi : i < L.length) (hj : j < s) :
    L.flatten.getD (i * s + j) d = (L.getD i []).getD j d := by
  induction L generalizing i with
  | nil => simp at hi
  | cons a l ih =>
      cases i with
      | zero =>
          have hlen : a.length = s := h a (by simp)
          simp only [List.flatten_cons, Nat.zero_mul, Nat.zero_add,
            List.getD_cons_zero]
          rw [List.getD_eq_getElem?_getD, List.getElem?_append_left (by omega),
            ← List.getD_eq_getElem?_getD]
      | succ i' =>
          have hlen : a.length = s := h a (by simp)
          simp only [List.flatten_cons]
          have hidx : (i' + 1) * s + j = a.length + (i' * s + j) := by
            rw [hlen]; ring
          rw [List.getD_eq_getElem?_getD, hidx,
            List.getElem?_append_right (by omega)]
          simp only [Nat.add_sub_cancel_left]
          rw [← List.getD_eq_getElem?_getD, List.getD_cons_succ]
          exact ih i' (fun x hx => h x (by simp [hx])) (by simpa using hi)

theorem getD_zip {α β : Type} :
    ∀ (A : List α) (B : List β) (i : Nat) (da : α) (db : β),
      i < A.length → i < B.length →
      ((A.zip B).getD i (da, db)) = (A.getD i da, B.getD i db)
  | [], _, _, _, _, hA, _ => absurd hA (by simp)
  | _ :: _, [], _, _, _, _, hB => absurd hB (by simp)
  | a :: A', b :: B', 0, da, db, _, _ => rfl
  | a :: A', b :: B', (i + 1), da, db, hA, hB => by
      simp only [List.zip_cons_cons, List.getD_cons_succ]
      exact getD_zip A' B' i da db (by simpa using hA) (by simpa using hB)

theorem zipWith_self_map {α β : Type} (f : α → α → β) (g : α → α)
    (l : List α) :
    List.zipWith f l (l.map g) = l.map (fun x => f x (g x)) := by
  induction l with
  | nil => rfl
  | cons a t ih => simp [ih]

theorem resetSource_tileSource (m : Nat) (hm : 1 ≤ m) (s : Source)
    (hw : s.rot.length = s.pos.length) :
    resetSource s (tileSource m s) = s := by
  by_cases h : s.pos.length = 1
  · rcases List.length_eq_one.mp h with ⟨a, ha⟩
    rcases List.length_eq_one.mp (by rw [hw]; exact h) with ⟨r, hr⟩
    cases m with
    | zero => omega
    | succ m' =>
        unfold resetSource tileSource
        rw [if_pos h, if_pos (by simp [h])]
        simp only [ha, hr, List.replicate_succ, List.headD_cons,
          List.getD_cons_zero]
        rw [← ha, ← hr]
  · unfold resetSource tileSource
    rw [if_neg h, if_neg h]

theorem resetSensor_tileSensor (m : Nat) (hm : 1 ≤ m) (s : Sensor)
    (hw : s.rot.length = s.pos.length) :
    resetSensor s (tileSensor m s) = s := by
  by_cases h : s.pos.length = 1
  · rcases List.length_eq_one.mp h with ⟨a, ha⟩
    rcases List.length_eq_one.mp (by rw [hw]; exact h) with ⟨r, hr⟩
    cases m with
    | zero => omega
    | succ m' =>
        unfold resetSensor tileSensor
        rw [if_pos h, if_pos (by simp [h])]
        simp only [ha, hr, List.replicate_succ, List.headD_cons,
          List.getD_cons_zero]
        rw [← ha, ← hr]
  · unfold resetSensor tileSensor
    rw [if_neg h, if_neg h]

theorem tiled_no_other (m : Nat) (src_list : List Source)
    (hnounk : ∀ s ∈ src_list, s.typ ≠ SrcType.other) :
    ((if 1 < m then src_list.map (tileSource m) else src_list).any
      (fun s => decide (s.typ = SrcType.other))) = false := by
  rw [List.any_eq_false]
  intro x hx
  split at hx
  · rcases List.mem_map.mp hx with ⟨y, hy, rfl⟩
    simp [tileSource_typ]
    exact hnounk y hy
  · simp
    exact hnounk x hx

theorem getBH_level2_success_unfold
    (formula : Bool → SrcType → Vec3 → List ℚ → Vec3 → Vec3) (bh : Bool)
    (sources : List SrcEntry) (observers : ObsInput) (sumup squeeze : Bool)
    (m : Nat)
    (hshape : all_same ((format_observers observers).map Sensor.pixShape) = true)
    (hpath : get_good_path_length
      ((format_obj_input sources).map (fun s => s.pos.length) ++
       (format_observers observers).map (fun s => s.pos.length)) = Except.ok m)
    (hnounk : ∀ s ∈ format_obj_input sources, s.typ ≠ SrcType.other) :
    getBH_level2 formula bh sources observers sumup squeeze =
      (let SL := format_obj_input sources
       let SS := format_observers observers
       let SL' := if 1 < m then SL.map (tileSource m) else SL
       let SS' := if 1 < m then SS.map (tileSensor m) else SS
       let poso := posoAll SS' m
       let n := poso.length / m
       let B := evalAllGroups formula bh SL' poso m n
       let B1 := if sources.length < SL.length then
                   collapseColls m n sources B else B
       let kp := ((SS.map Sensor.pixShape).headD []).dropLast.prod
       let fs := (SS.map unrotatedSensor).zip
                   ((SS.map staticSensorRot).zip (SS'.map (fun s => s.rot)))
       let B2 := applySensorRots kp 0 fs B1
       ⟨if 1 < m then List.zipWith resetSource SL (SL.map (tileSource m))
          else SL,
        if 1 < m then List.zipWith resetSensor SS (SS.map (tileSensor m))
          else SS,
        Except.ok (postProcess sumup squeeze
          ⟨[sources.length, m, SS.length] ++ (SS.map Sensor.pixShape).headD [],
           B2.flatten.flatten⟩)⟩) := by
  simp only [getBH_level2]
  rw [hpath]
  simp only [hshape, if_true, tiled_no_other m (format_obj_input sources) hnounk,
    Bool.false_eq_true, if_false, postProcess]
  by_cases hm : 1 < m
  · simp only [if_pos hm]
  · simp only [if_neg hm]

/-! ## Flattening and bookkeeping lemmas -/
theorem SrcEntry.length_members (e : SrcEntry) : e.members.length = e.size := by
  cases e <;> rfl

theorem format_obj_input_cons (en : SrcEntry) (es : List SrcEntry) :
    format_obj_input (en :: es) = en.members ++ format_obj_input es := by
  cases en <;> rfl

theorem length_format_obj_input (sources : List SrcEntry) :
    (format_obj_input sources).length = (sources.map SrcEntry.size).sum := by
  induction sources with
  | nil => rfl
  | cons en es ih =>
      rw [format_obj_input_cons, List.length_append, ih,
        SrcEntry.length_members]
      simp

theorem mem_format_obj_input (sources : List SrcEntry) (s : Source)
    (h : s ∈ format_obj_input sources) : ∃ en ∈ sources, s ∈ en.members := by
  induction sources with
  | nil => simp [format_obj_input] at h
  | cons en es ih =>
      rw [format_obj_input_cons, List.mem_append] at h
      rcases h with h | h
      · exact ⟨en, by simp, h⟩
      · rcases ih h with ⟨en', hen', hs⟩
        exact ⟨en', by simp [hen'], hs⟩

theorem members_mem_format_obj_input (sources : List SrcEntry)
    (en : SrcEntry) (s : Source) (hen : en ∈ sources) (hs : s ∈ en.members) :
    s ∈ format_obj_input sources := by
  induction sources with
  | nil => simp at hen
  | cons en0 es ih =>
      rw [format_obj_input_cons, List.mem_append]
      rcases List.mem_cons.mp hen with rfl | hen'
      · exact Or.inl hs
      · exact Or.inr (ih hen')

theorem format_obj_input_getD (sources : List SrcEntry) (e q : Nat)
    (he : e < sources.length)
    (hq : q < (sources.getD e (SrcEntry.single srcDflt)).members.length) :
    (format_obj_input sources).getD (entryOffset sources e + q) srcDflt =
      (sources.getD e (SrcEntry.single srcDflt)).members.getD q srcDflt := by
  induction sources generalizing e with
  | nil => simp at he
  | cons en es ih =>
      cases e with
      | zero =>
          simp only [List.getD_cons_zero] at hq ⊢
          rw [format_obj_input_cons]
          simp only [entryOffset, List.take_zero, List.map_nil, List.sum_nil,
            Nat.zero_add]
          rw [List.getD_eq_getElem?_getD, List.getElem?_append_left hq,
            ← List.getD_eq_getElem?_getD]
      | succ e' =>
          simp only [List.getD_cons_succ] at hq ⊢
          rw [format_obj_input_cons]
          have hoff : entryOffset (en :: es) (e' + 1) =
              en.size + entryOffset es e' := by
            simp [entryOffset, List.take_succ_cons]
          rw [hoff, List.getD_eq_getElem?_getD]
          have hidx : en.size + entryOffset es e' + q =
              en.members.length + (entryOffset es e' + q) := by
            rw [SrcEntry.length_members]; omega
          rw [hidx, List.getElem?_append_right (by omega)]
          simp only [Nat.add_sub_cancel_left]
          rw [← List.getD_eq_getElem?_getD]
          exact ih e' (by simpa using he) hq

theorem sum_ge_length (l : List Nat) (h : ∀ x ∈ l, 1 ≤ x) :
    l.length ≤ l.sum := by
  induction l with
  | nil => simp
  | cons a t ih =>
      simp only [List.length_cons, List.sum_cons]
      have := h a (by simp)
      have := ih (fun x hx => h x (by simp [hx]))
      omega

theorem sizes_all_one (l : List Nat) (h1 : ∀ x ∈ l, 1 ≤ x)
    (hle : l.sum ≤ l.length) : ∀ x ∈ l, x = 1 := by
  induction l with
  | nil => simp
  | cons a t ih =>
      simp only [List.sum_cons, List.length_cons] at hle
      have ha := h1 a (by simp)
      have ht := sum_ge_length t (fun x hx => h1 x (by simp [hx]))
      intro x hx
      rcases List.mem_cons.mp hx with rfl | hx'
      · omega
      · exact ih (fun y hy => h1 y (by simp [hy])) (by omega) x hx'

theorem sum_all_one (l : List Nat) (h : ∀ x ∈ l, x = 1) :
    l.sum = l.length := by
  induction l with
  | nil => rfl
  | cons a t ih =>
      simp only [List.sum_cons, List.length_cons,
        ih (fun x hx => h x (by simp [hx])), h a (by simp)]
      omega

theorem entryOffset_all_one (sources : List SrcEntry)
    (h1 : ∀ en ∈ sources, en.size = 1) (e : Nat) (he : e ≤ sources.length) :
    entryOffset sources e = e := by
  unfold entryOffset
  rw [sum_all_one _ (fun x hx => by
    rcases List.mem_map.mp hx with ⟨en, hen, rfl⟩
    exact h1 en (List.mem_of_mem_take hen))]
  simp only [List.length_map, List.length_take]
  omega

theorem one_le_foldr_max (lens : List Nat) : 1 ≤ lens.foldr max 1 := by
  induction lens with
  | nil => simp
  | cons a t ih =>
      simp only [List.foldr_cons]
      exact le_trans ih (le_max_right a _)

theorem get_good_path_length_ok (lens : List Nat) (m : Nat)
    (h : get_good_path_length lens = Except.ok m) :
    1 ≤ m ∧ ∀ L ∈ lens, L = 1 ∨ L = m := by
  simp only [get_good_path_length] at h
  split at h
  · rename_i hall
    have hm : m = lens.foldr max 1 := by
      injection h with h'
      omega
    subst hm
    refine ⟨one_le_foldr_max lens, ?_⟩
    intro L hL
    have := List.all_eq_true.mp hall L hL
    simpa using this
  · exact absurd h (by simp)

/-! ## Shape preservation through collapse and back-rotation -/
theorem collapseColls_sliceOK (m n : Nat) (entries : List SrcEntry)
    (B : List (List (List Vec3))) (hB : ∀ x ∈ B, SliceOK m n x) :
    ∀ x ∈ collapseColls m n entries B, SliceOK m n x := by
  induction entries generalizing B with
  | nil => exact hB
  | cons en es ih =>
      cases en with
      | single s0 =>
          intro x hx
          rcases List.mem_cons.mp hx with rfl | hx'
          · cases B with
            | nil => exact sliceOK_zeroSlice m n
            | cons b bs => exact hB b (by simp)
          · exact ih B.tail
              (fun y hy => hB y (List.mem_of_mem_tail hy)) x hx'
      | coll ms =>
          intro x hx
          rcases List.mem_cons.mp hx with rfl | hx'
          · exact sliceOK_sumSlices m n _ (fun y hy =>
              hB y (List.mem_of_mem_take hy))
          · exact ih (B.drop ms.length)
              (fun y hy => hB y (List.mem_of_mem_drop hy)) x hx'

theorem mem_mapIdxFrom {α β : Type} (f : Nat → α → β) (i0 : Nat) (l : List α)
    (x : β) (hx : x ∈ mapIdxFrom f i0 l) : ∃ j a, a ∈ l ∧ x = f j a := by
  induction l generalizing i0 with
  | nil => simp [mapIdxFrom] at hx
  | cons a t ih =>
      rcases List.mem_cons.mp hx with rfl | hx'
      · exact ⟨i0, a, by simp⟩
      · rcases ih (i0 + 1) hx' with ⟨j, b, hb, rfl⟩
        exact ⟨j, b, by simp [hb]⟩

theorem applyOneSensorRot_length (kp i : Nat) (u st : Bool)
    (rots : List Mat3) (B : List (List (List Vec3))) :
    (applyOneSensorRot kp i u st rots B).length = B.length := by
  unfold applyOneSensorRot
  split
  · rfl
  split <;> simp

theorem applyOneSensorRot_sliceOK (m n kp i : Nat) (u st : Bool)
    (rots : List Mat3) (B : List (List (List Vec3)))
    (hB : ∀ x ∈ B, SliceOK m n x) :
    ∀ x ∈ applyOneSensorRot kp i u st rots B, SliceOK m n x := by
  unfold applyOneSensorRot
  split
  · exact hB
  split
  · intro x hx
    rcases List.mem_map.mp hx with ⟨b, hb, rfl⟩
    refine ⟨by rw [List.length_map]; exact (hB b hb).1, ?_⟩
    intro row hrow
    rcases List.mem_map.mp hrow with ⟨r, hr, rfl⟩
    rw [length_mapIdxFrom]
    exact (hB b hb).2 r hr
  · intro x hx
    rcases List.mem_map.mp hx with ⟨b, hb, rfl⟩
    refine ⟨by rw [length_mapIdxFrom]; exact (hB b hb).1, ?_⟩
    intro row hrow
    rcases mem_mapIdxFrom _ _ _ _ hrow with ⟨j, r, hr, rfl⟩
    rw [length_mapIdxFrom]
    exact (hB b hb).2 r hr

theorem applySensorRots_length (kp : Nat)
    (fs : List (Bool × Bool × List Mat3)) (i0 : Nat)
    (B : List (List (List Vec3))) :
    (applySensorRots kp i0 fs B).length = B.length := by
  induction fs generalizing i0 B with
  | nil => rfl
  | cons f fs' ih =>
      rw [applySensorRots_cons, ih, applyOneSensorRot_length]

theorem applySensorRots_sliceOK (m n kp : Nat)
    (fs : List (Bool × Bool × List Mat3)) (i0 : Nat)
    (B : List (List (List Vec3))) (hB : ∀ x ∈ B, SliceOK m n x) :
    ∀ x ∈ applySensorRots kp i0 fs B, SliceOK m n x := by
  induction fs generalizing i0 B with
  | nil => exact hB
  | cons f fs' ih =>
      rw [applySensorRots_cons]
      exact ih (i0 + 1) _ (applyOneSensorRot_sliceOK m n kp i0 _ _ _ B hB)

/-! ## Value of the dense tensor before collapse -/
theorem getD_congr_default {α : Type} (l : List α) (i : Nat) (d d' : α)
    (h : i < l.length) : l.getD i d = l.getD i d' := by
  rw [List.getD_eq_getElem l d h, List.getD_eq_getElem l d' h]

theorem getD_mem {α : Type} (l : List α) (i : Nat) (d : α)
    (h : i < l.length) : l.getD i d ∈ l := by
  rw [List.getD_eq_getElem l d h]
  exact l.getElem_mem h

theorem tiledSens_pix (m : Nat) (s : Sensor) : (tiledSens m s).pix = s.pix := by
  unfold tiledSens
  split
  · exact tileSensor_pix m s
  · rfl

theorem tiledSrc_typ (m : Nat) (s : Source) : (tiledSrc m s).typ = s.typ := by
  unfold tiledSrc
  split
  · exact tileSource_typ m s
  · rfl

theorem entryOffset_add_size_le (sources : List SrcEntry) (e : Nat)
    (he : e < sources.length) :
    entryOffset sources e + (sources.getD e (SrcEntry.single srcDflt)).size ≤
      (sources.map SrcEntry.size).sum := by
  induction sources generalizing e with
  | nil => simp at he
  | cons en es ih =>
      cases e with
      | zero =>
          simp only [entryOffset, List.take_zero, List.map_nil, List.sum_nil,
            List.getD_cons_zero, List.map_cons, List.sum_cons, Nat.zero_add]
          omega
      | succ e' =>
          have hoff : entryOffset (en :: es) (e' + 1) =
              en.size + entryOffset es e' := by
            simp [entryOffset, List.take_succ_cons]
          simp only [hoff, List.getD_cons_succ, List.map_cons, List.sum_cons]
          have := ih e' (by simpa using he)
          omega

theorem evalB_value (formula : Bool → SrcType → Vec3 → List ℚ → Vec3 → Vec3)
    (bh : Bool) (SL' : List Source) (poso : List Vec3) (m n npix : Nat)
    (SS' : List Sensor) (hposo : poso = posoAll SS' m)
    (hpix' : ∀ s ∈ SS', s.pix.length = npix)
    (hn : n = SS'.length * npix)
    (q j i p : Nat) (hq : q < SL'.length) (hj : j < m)
    (hi : i < SS'.length) (hp : p < npix)
    (ht : (SL'.getD q srcDflt).typ ≠ SrcType.other) :
    (((evalAllGroups formula bh SL' poso m n).getD q []).getD j []).getD
        (i * npix + p) 0 =
      worldField formula bh (SL'.getD q srcDflt) j
        (((SS'.getD i sensDflt).rot.getD j Mat3.one).apply
          ((SS'.getD i sensDflt).pix.getD p 0) +
         (SS'.getD i sensDflt).pos.getD j 0) := by
  have hc : i * npix + p < n := by
    rw [hn]
    calc i * npix + p < i * npix + npix := by omega
    _ = (i + 1) * npix := by ring
    _ ≤ SS'.length * npix := Nat.mul_le_mul_right npix (by omega)
  rw [evalAllGroups_getD formula bh SL' poso m n q hq ht]
  unfold sliceFor
  rw [getD_map_range _ m j _ hj, getD_map_range _ n (i * npix + p) _ hc]
  unfold rowVal worldField
  rw [hposo]
  have hix : j * n + (i * npix + p) =
      j * (SS'.length * npix) + (i * npix + p) := by rw [hn]
  rw [hix, posoAll_getD SS' m npix j i p hpix' hj hi hp]

/-- Master characterisation of a successful `getBH_level2` call: the object
state is restored, the output array has the documented shape, and every output
element is the back-rotation (per its sensor's flags) of the sum of the
world-frame fields of its top-level entry's members, evaluated at the sensor
pixel's world position.  This is the shared workhorse behind the individual
claim theorems. -/
theorem getBH_level2_char
    (formula : Bool → SrcType → Vec3 → List ℚ → Vec3 → Vec3) (bh : Bool)
    (sources : List SrcEntry) (observers : ObsInput)
    (sumup squeeze : Bool) (m npix : Nat)
    (src_list : List Source) (sensors : List Sensor)
    (hsrc : src_list = format_obj_input sources)
    (hsens : sensors = format_observers observers)
    (hshape : all_same (sensors.map Sensor.pixShape) = true)
    (hpath : get_good_path_length (src_list.map (fun s => s.pos.length) ++
      sensors.map (fun s => s.pos.length)) = Except.ok m)
    (hnounk : ∀ s ∈ src_list, s.typ ≠ SrcType.other)
    (hpix : ∀ s ∈ sensors, s.pix.length = npix)
    (hdims : ∀ s ∈ sensors, s.pixDims.prod = npix)
    (hslen : ∀ s ∈ src_list, s.rot.length = s.pos.length)
    (hsenslen : ∀ s ∈ sensors, s.rot.length = s.pos.length)
    (hsz : ∀ en ∈ sources, 1 ≤ en.size)
    (hnpix0 : 0 < npix) (hne : sensors ≠ []) :
    ∃ data : List Vec3,
      getBH_level2 formula bh sources observers sumup squeeze =
        ⟨src_list, sensors,
         Except.ok (postProcess sumup squeeze
           ⟨[sources.length, m, sensors.length] ++
             (sensors.headD sensDflt).pixShape, data⟩)⟩ ∧
      data.length = sources.length * m * (sensors.length * npix) ∧
      ∀ e j i p, e < sources.length → j < m → i < sensors.length → p < npix →
        data.getD (((e * m + j) * sensors.length + i) * npix + p) 0 =
          sensBackRot (unrotatedSensor (sensors.getD i sensDflt))
            (staticSensorRot (sensors.getD i sensDflt))
            ((tiledSens m (sensors.getD i sensDflt)).rot) j
            (vsum ((sources.getD e (SrcEntry.single srcDflt)).members.map
              (fun s0 => worldField formula bh (tiledSrc m s0) j
                (obsPosAt m (sensors.getD i sensDflt) j p)))) := by
  have hm1 : 1 ≤ m := (get_good_path_length_ok _ _ hpath).1
  have hunf := getBH_level2_success_unfold formula bh sources observers
    sumup squeeze m
    (by rw [← hsens]; exact hshape)
    (by rw [← hsrc, ← hsens]; exact hpath)
    (by rw [← hsrc]; exact hnounk)
  rw [← hsrc, ← hsens] at hunf
  simp only [] at hunf
  set SL' := (if 1 < m then src_list.map (tileSource m) else src_list)
    with hSLdef
  set SS' := (if 1 < m then sensors.map (tileSensor m) else sensors)
    with hSSdef
  set poso := posoAll SS' m with hposodef
  set n := poso.length / m with hndef
  set B := evalAllGroups formula bh SL' poso m n with hBdef
  set B1 := (if sources.length < src_list.length then
    collapseColls m n sources B else B) with hB1def
  set kp := ((sensors.map Sensor.pixShape).headD []).dropLast.prod with hkpdef
  set fs := ((sensors.map unrotatedSensor).zip
    ((sensors.map staticSensorRot).zip (SS'.map (fun s => s.rot)))) with hfsdef
  set B2 := applySensorRots kp 0 fs B1 with hB2def
  have hheadmem : sensors.headD sensDflt ∈ sensors := by
    cases sensors with
    | nil => exact absurd rfl hne
    | cons s ss => exact List.mem_cons_self s ss
  have hheadsh : (sensors.map Sensor.pixShape).headD [] =
      (sensors.headD sensDflt).pixShape := by
    cases sensors with
    | nil => exact absurd rfl hne
    | cons s ss => rfl
  have hresetS : (if 1 < m then
      List.zipWith resetSource src_list (src_list.map (tileSource m))
      else src_list) = src_list := by
    by_cases hm : 1 < m
    · rw [if_pos hm, zipWith_self_map,
        List.map_congr_left (fun s hs => resetSource_tileSource m hm1 s (hslen s hs)),
        List.map_id']
    · rw [if_neg hm]
  have hresetK : (if 1 < m then
      List.zipWith resetSensor sensors (sensors.map (tileSensor m))
      else sensors) = sensors := by
    by_cases hm : 1 < m
    · rw [if_pos hm, zipWith_self_map,
        List.map_congr_left (fun s hs => resetSensor_tileSensor m hm1 s (hsenslen s hs)),
        List.map_id']
    · rw [if_neg hm]
  have hSL'eq : SL' = src_list.map (tiledSrc m) := by
    rw [hSLdef]
    by_cases hm : 1 < m
    · rw [if_pos hm]
      exact List.map_congr_left (fun s _ => by simp [tiledSrc, hm])
    · rw [if_neg hm]
      calc src_list = src_list.map id := (List.map_id src_list).symm
      _ = src_list.map (tiledSrc m) :=
        List.map_congr_left (fun s _ => by simp [tiledSrc, hm])
  have hSS'eq : SS' = sensors.map (tiledSens m) := by
    rw [hSSdef]
    by_cases hm : 1 < m
    · rw [if_pos hm]
      exact List.map_congr_left (fun s _ => by simp [tiledSens, hm])
    · rw [if_neg hm]
      calc sensors = sensors.map id := (List.map_id sensors).symm
      _ = sensors.map (tiledSens m) :=
        List.map_congr_left (fun s _ => by simp [tiledSens, hm])
  have hSL'len : SL'.length = src_list.length := by
    rw [hSL'eq, List.length_map]
  have hSS'len : SS'.length = sensors.length := by
    rw [hSS'eq, List.length_map]
  have hpix' : ∀ s ∈ SS', s.pix.length = npix := by
    rw [hSS'eq]
    intro s' hs'
    rcases List.mem_map.mp hs' with ⟨s, hs, rfl⟩
    rw [tiledSens_pix]
    exact hpix s hs
  have hposolen : poso.length = m * (sensors.length * npix) := by
    rw [hposodef, length_posoAll SS' m npix hpix', hSS'len]
  have hneq : n = sensors.length * npix := by
    rw [hndef, hposolen, Nat.mul_div_cancel_left _ (by omega)]
  have hkp : kp = npix := by
    rw [hkpdef, hheadsh, Sensor.pixShape, List.dropLast_concat]
    exact hdims _ hheadmem
  have hsum : (sources.map SrcEntry.size).sum = src_list.length := by
    rw [hsrc, length_format_obj_input]
  have hBlen : B.length = src_list.length := by
    rw [hBdef, length_evalAllGroups, hSL'len]
  have hBok : ∀ x ∈ B, SliceOK m n x := by
    rw [hBdef]
    exact evalAllGroups_sliceOK formula bh SL' poso m n
  have hB1len : B1.length = sources.length := by
    rw [hB1def]
    by_cases hg : sources.length < src_list.length
    · rw [if_pos hg, length_collapseColls m n sources B (by rw [hBlen, ← hsum])]
    · rw [if_neg hg, hBlen]
      have h1 := sum_ge_length (sources.map SrcEntry.size) (fun x hx => by
        rcases List.mem_map.mp hx with ⟨en, hen, rfl⟩
        exact hsz en hen)
      rw [List.length_map] at h1
      omega
  have hB1ok : ∀ x ∈ B1, SliceOK m n x := by
    rw [hB1def]
    by_cases hg : sources.length < src_list.length
    · rw [if_pos hg]
      exact collapseColls_sliceOK m n sources B hBok
    · rw [if_neg hg]
      exact hBok
  have hB2ok : ∀ x ∈ B2, SliceOK m n x := by
    rw [hB2def]
    exact applySensorRots_sliceOK m n kp fs 0 B1 hB1ok
  have hB2len : B2.length = sources.length := by
    rw [hB2def, applySensorRots_length, hB1len]
  refine ⟨B2.flatten.flatten, ?_, ?_, ?_⟩
  · rw [hunf, hresetS, hresetK, hheadsh]
  · have hrows : ∀ row ∈ B2.flatten, row.length = n := by
      intro row hrow
      rcases List.mem_flatten.mp hrow with ⟨slice, hsl, hrw⟩
      exact (hB2ok slice hsl).2 row hrw
    rw [length_flatten_const B2.flatten n hrows,
      length_flatten_const B2 m (fun x hx => (hB2ok x hx).1), hB2len, hneq]
  intro e j i p he hj hi hp
  have hc : i * npix + p < n := by
    rw [hneq]
    calc i * npix + p < i * npix + npix := by omega
    _ = (i + 1) * npix := by ring
    _ ≤ sensors.length * npix := Nat.mul_le_mul_right npix (by omega)
  have hrows : ∀ row ∈ B2.flatten, row.length = n := by
    intro row hrow
    rcases List.mem_flatten.mp hrow with ⟨slice, hsl, hrw⟩
    exact (hB2ok slice hsl).2 row hrw
  have hflen : B2.flatten.length = sources.length * m := by
    rw [length_flatten_const B2 m (fun x hx => (hB2ok x hx).1), hB2len]
  have hidx : ((e * m + j) * sensors.length + i) * npix + p =
      (e * m + j) * n + (i * npix + p) := by
    rw [hneq]; ring
  rw [hidx]
  rw [getD_flatten_const B2.flatten n (e * m + j) (i * npix + p) 0 hrows
    (by
      rw [hflen]
      calc e * m + j < e * m + m := by omega
      _ = (e + 1) * m := by ring
      _ ≤ sources.length * m := Nat.mul_le_mul_right m (by omega)) hc]
  rw [getD_flatten_const B2 m e j [] (fun x hx => (hB2ok x hx).1)
    (by rw [hB2len]; exact he) hj]
  have hfs_len : fs.length = sensors.length := by
    rw [hfsdef, List.length_zip, List.length_zip]
    simp [hSS'len]
  have hgsi : SS'.getD i sensDflt = tiledSens m (sensors.getD i sensDflt) := by
    rw [hSS'eq]
    exact getD_map _ _ _ _ sensDflt hi
  have hfsget : fs.getD i (true, true, []) =
      (unrotatedSensor (sensors.getD i sensDflt),
       staticSensorRot (sensors.getD i sensDflt),
       (tiledSens m (sensors.getD i sensDflt)).rot) := by
    rw [hfsdef]
    rw [show ((true, true, []) : Bool × Bool × List Mat3) =
      (true, (true, ([] : List Mat3))) from rfl]
    rw [getD_zip _ _ i true (true, ([] : List Mat3))
      (by rw [List.length_map]; exact hi)
      (by rw [List.length_zip, List.length_map, List.length_map, hSS'len]
          simp [hi])]
    rw [getD_zip _ _ i true ([] : List Mat3)
      (by rw [List.length_map]; exact hi)
      (by rw [List.length_map, hSS'len]; exact hi)]
    rw [getD_map unrotatedSensor sensors i true sensDflt hi,
      getD_map staticSensorRot sensors i true sensDflt hi,
      getD_map (fun s => s.rot) SS' i [] sensDflt (by rw [hSS'len]; exact hi),
      hgsi]
  rw [hB2def, applySensorRots_getD_mem kp fs 0 i B1 e j (i * npix + p)
    (by rw [hfs_len]; exact hi)
    (by rw [hkp, Nat.zero_add]; omega)
    (by
      rw [hkp]
      have hx : (0 + i + 1) * npix = i * npix + npix := by ring
      rw [hx]
      omega),
    hfsget]
  congr 1
  -- remaining: the B1 value equals the summed member world fields
  have hBval : ∀ q, q < src_list.length →
      ((B.getD q []).getD j []).getD (i * npix + p) 0 =
        worldField formula bh (tiledSrc m (src_list.getD q srcDflt)) j
          (obsPosAt m (sensors.getD i sensDflt) j p) := by
    intro q hq
    have hglq : SL'.getD q srcDflt = tiledSrc m (src_list.getD q srcDflt) := by
      rw [hSL'eq]
      exact getD_map _ _ _ _ srcDflt hq
    rw [hBdef, evalB_value formula bh SL' poso m n npix SS' hposodef hpix'
      (by rw [hneq, hSS'len]) q j i p (by rw [hSL'len]; exact hq) hj
      (by rw [hSS'len]; exact hi) hp
      (by rw [hglq, tiledSrc_typ]; exact hnounk _ (getD_mem _ _ _ hq))]
    rw [hglq, hgsi]
    unfold obsPosAt
    rw [tiledSens_pix]
  have hclen : (collapseColls m n sources B).length = sources.length :=
    length_collapseColls m n sources B (by rw [hBlen, ← hsum])
  by_cases hg : sources.length < src_list.length
  · have hB1e : B1 = collapseColls m n sources B := by rw [hB1def, if_pos hg]
    have hszle := entryOffset_add_size_le sources e he
    have hsz1 : 1 ≤ (sources.getD e (SrcEntry.single srcDflt)).size :=
      hsz _ (getD_mem _ _ _ he)
    cases hent : sources.getD e (SrcEntry.single srcDflt) with
    | single s0 =>
        rw [hB1e, getD_congr_default _ e [] (zeroSlice m n)
          (by rw [hclen]; exact he),
          collapseColls_getD_single m n sources B e s0 hent he,
          getD_congr_default B _ (zeroSlice m n) []
            (by rw [hBlen, ← hsum]; omega),
          hBval (entryOffset sources e) (by rw [← hsum]; omega)]
        have hq0 := format_obj_input_getD sources e 0 he
          (by rw [hent]; simp [SrcEntry.members])
        rw [hent] at hq0
        simp only [SrcEntry.members, List.getD_cons_zero, Nat.add_zero] at hq0
        rw [← hsrc] at hq0
        rw [hq0]
        simp only [SrcEntry.members, List.map_cons, List.map_nil, vsum,
          List.foldr_cons, List.foldr_nil]
        rw [Vec3.add_zero']
    | coll ms =>
        have hms : (sources.getD e (SrcEntry.single srcDflt)).size =
            ms.length := by rw [hent]; rfl
        rw [hB1e, getD_congr_default _ e [] (zeroSlice m n)
          (by rw [hclen]; exact he),
          collapseColls_getD_coll m n sources B e ms hent he]
        have hslok : ∀ x ∈ (B.drop (entryOffset sources e)).take ms.length,
            SliceOK m n x := fun x hx =>
          hBok x (List.mem_of_mem_drop (List.mem_of_mem_take hx))
        rw [sumSlices_getD m n _ hslok j (i * npix + p) hj hc]
        congr 1
        have hlentk : ((B.drop (entryOffset sources e)).take ms.length).length =
            ms.length := by
          rw [List.length_take, List.length_drop, hBlen, ← hsum]
          rw [hms] at hszle
          omega
        apply List.ext_getElem
        · rw [List.length_map, hlentk, List.length_map]
          rfl
        intro q hq1 hq2
        rw [List.getElem_map, List.getElem_map, List.getElem_take,
          List.getElem_drop]
        have hqm : q < ms.length := by
          rw [List.length_map] at hq2
          exact hq2
        have hqlt : entryOffset sources e + q < src_list.length := by
          rw [← hsum]
          rw [hms] at hszle
          omega
        have hBq : B[entryOffset sources e + q] =
            B.getD (entryOffset sources e + q) [] := by
          rw [List.getD_eq_getElem B [] (by rw [hBlen]; exact hqlt)]
        rw [hBq, hBval (entryOffset sources e + q) hqlt]
        have hq0 := format_obj_input_getD sources e q he
          (by rw [hent]; simpa [SrcEntry.members] using hqm)
        rw [hent] at hq0
        simp only [SrcEntry.members] at hq0
        rw [← hsrc] at hq0
        rw [hq0, List.getD_eq_getElem ms srcDflt hqm]
        rfl
  · have hB1e : B1 = B := by rw [hB1def, if_neg hg]
    have hall1 : ∀ en ∈ sources, en.size = 1 := by
      intro en hen
      refine sizes_all_one (sources.map SrcEntry.size) ?_ ?_ _
        (List.mem_map_of_mem SrcEntry.size hen)
      · intro x hx
        rcases List.mem_map.mp hx with ⟨en', hen', rfl⟩
        exact hsz en' hen'
      · rw [List.length_map, hsum]
        omega
    have hlen_eq : src_list.length = sources.length := by
      rw [← hsum, sum_all_one _ (fun x hx => by
        rcases List.mem_map.mp hx with ⟨en', hen', rfl⟩
        exact hall1 en' hen'), List.length_map]
    have hoffe : entryOffset sources e = e :=
      entryOffset_all_one sources hall1 e (le_of_lt he)
    have hsz1 : (sources.getD e (SrcEntry.single srcDflt)).size = 1 :=
      hall1 _ (getD_mem _ _ _ he)
    have hmem1 : (sources.getD e (SrcEntry.single srcDflt)).members.length = 1 := by
      rw [SrcEntry.length_members, hsz1]
    rcases List.length_eq_one.mp hmem1 with ⟨s0, hs0⟩
    have helt : e < src_list.length := by rw [hlen_eq]; exact he
    rw [hB1e, hBval e helt]
    have hq0 := format_obj_input_getD sources e 0 he (by rw [hs0]; simp)
    rw [hs0] at hq0
    simp only [List.getD_cons_zero, Nat.add_zero] at hq0
    rw [hoffe, ← hsrc] at hq0
    rw [hq0, hs0]
    simp only [List.map_cons, List.map_nil, vsum, List.foldr_cons,
      List.foldr_nil]
    rw [Vec3.add_zero']

theorem tiledSens_rot (m : Nat) (sens : Sensor) :
    (tiledSens m sens).rot =
      if 1 < m ∧ sens.pos.length = 1 then
        List.replicate m (sens.rot.headD Mat3.one)
      else sens.rot := by
  unfold tiledSens tileSensor
  by_cases hm : 1 < m
  · by_cases h1 : sens.pos.length = 1
    · rw [if_pos hm, if_pos h1, if_pos ⟨hm, h1⟩]
    · rw [if_pos hm, if_neg h1, if_neg (by tauto)]
  · rw [if_neg hm, if_neg (by tauto)]

theorem tiledSens_rot_one (m : Nat) (sens : Sensor) (j : Nat)
    (hu : unrotatedSensor sens = true) :
    (tiledSens m sens).rot.getD j Mat3.one = Mat3.one := by
  have hall : ∀ r ∈ sens.rot, r = Mat3.one := fun r hr => by
    simpa using List.all_eq_true.mp hu r hr
  have hhead : sens.rot.headD Mat3.one = Mat3.one := by
    cases hrot : sens.rot with
    | nil => rfl
    | cons a t =>
        simp only [List.headD_cons]
        exact hall a (by rw [hrot]; simp)
  rw [tiledSens_rot]
  split
  · by_cases hj : j < m
    · rw [List.getD_eq_getElem _ _ (by simpa using hj),
        List.getElem_replicate, hhead]
    · exact getD_out_of_range _ _ _ (by simp only [List.length_replicate]; omega)
  · by_cases hj : j < sens.rot.length
    · exact hall _ (getD_mem _ _ _ hj)
    · exact getD_out_of_range _ _ _ (by omega)

theorem staticSensorRot_all (sens : Sensor) (hst : staticSensorRot sens = true)
    (h1 : sens.pos.length ≠ 1) :
    ∀ r ∈ sens.rot, r = sens.rot.headD Mat3.one := by
  unfold staticSensorRot at hst
  rw [if_neg h1] at hst
  intro r hr
  cases hrot : sens.rot with
  | nil => rw [hrot] at hr; simp at hr
  | cons a t =>
      rw [hrot] at hst hr
      replace hst : (t.all (fun x => x == a)) = true := hst
      simp only [List.headD_cons]
      rcases List.mem_cons.mp hr with rfl | hr'
      · rfl
      · simpa using List.all_eq_true.mp hst r hr'

theorem tiledSens_rot_getD_eq_headD (m : Nat) (sens : Sensor) (j : Nat)
    (hm : 1 ≤ m) (hj : j < m) (hw : sens.rot.length = sens.pos.length)
    (hL : sens.pos.length = 1 ∨ sens.pos.length = m)
    (hst : staticSensorRot sens = true) :
    (tiledSens m sens).rot.getD j Mat3.one =
      (tiledSens m sens).rot.headD Mat3.one := by
  rw [tiledSens_rot]
  split
  · rename_i hcond
    cases m with
    | zero => omega
    | succ m' =>
        rw [List.getD_eq_getElem _ _ (by simp only [List.length_replicate]; omega),
          List.getElem_replicate]
        simp [List.replicate_succ]
  · rename_i hcond
    by_cases h1 : sens.pos.length = 1
    · have hm1' : m = 1 := by
        by_cases hm2 : 1 < m
        · exact absurd ⟨hm2, h1⟩ hcond
        · omega
      have hj0 : j = 0 := by omega
      subst hj0
      rw [headD_eq_getD]
    · have hall := staticSensorRot_all sens hst h1
      have hlm : sens.rot.length = m := by
        rw [hw]
        rcases hL with h | h
        · exact absurd h h1
        · exact h
      exact hall _ (getD_mem _ _ _ (by omega))

/-- The flag-guided back-rotation equals the unconditional per-path-step
inverse rotation: skipping unrotated sensors and batching static-orientation
sensors are safe shortcuts. -/
theorem sensBackRot_eq_per_step (m : Nat) (sens : Sensor) (j : Nat) (v : Vec3)
    (hm : 1 ≤ m) (hj : j < m) (hw : sens.rot.length = sens.pos.length)
    (hL : sens.pos.length = 1 ∨ sens.pos.length = m) :
    sensBackRot (unrotatedSensor sens) (staticSensorRot sens)
      ((tiledSens m sens).rot) j v =
      ((tiledSens m sens).rot.getD j Mat3.one).inv.apply v := by
  unfold sensBackRot
  by_cases hu : unrotatedSensor sens = true
  · rw [if_pos hu, tiledSens_rot_one m sens j hu]
    simp
  · rw [if_neg hu]
    by_cases hst : staticSensorRot sens = true
    · rw [if_pos hst,
        ← tiledSens_rot_getD_eq_headD m sens j hm hj hw hL hst]
    · rw [if_neg hst]

theorem sensBackRot_add (u st : Bool) (rots : List Mat3) (j : Nat)
    (a b : Vec3) :
    sensBackRot u st rots j (a + b) =
      sensBackRot u st rots j a + sensBackRot u st rots j b := by
  unfold sensBackRot
  split
  · rfl
  split <;> exact Mat3.apply_add _ a b

theorem sensBackRot_vsum (u st : Bool) (rots : List Mat3) (j : Nat)
    (l : List Vec3) :
    vsum (l.map (sensBackRot u st rots j)) =
      sensBackRot u st rots j (vsum l) := by
  induction l with
  | nil =>
      simp only [List.map_nil, vsum, List.foldr_nil]
      exact (sensBackRot_zero u st rots j).symm
  | cons a t ih =>
      simp only [List.map_cons, vsum, List.foldr_cons] at ih ⊢
      rw [ih, sensBackRot_add]

/-! ## Post-processing -/
theorem postProcess_ff (A : NDArray) : postProcess false false A = A := rfl

theorem postProcess_tf_shape (A : NDArray) :
    (postProcess true false A).shape = A.shape.tail := rfl

theorem postProcess_ft_shape (A : NDArray) :
    (postProcess false true A).shape = A.shape.filter (· != 1) := rfl

theorem postProcess_tt_data_getD (A : NDArray) (hs : A.shape.headD 1 = 1)
    (c : Nat) (hc : c < A.data.length) :
    (postProcess true true A).data.getD c 0 = A.data.getD c 0 := by
  have h1 : (postProcess true true A).data = A.sumAxis0.data := rfl
  rw [h1]
  unfold NDArray.sumAxis0
  simp only [hs]
  rw [getD_map_range _ _ c _ (by simpa [Nat.div_one] using hc)]
  have hr1 : List.range 1 = [0] := rfl
  rw [hr1]
  simp only [List.foldr_cons, List.foldr_nil, Nat.zero_mul, Nat.zero_add,
    Nat.div_one]
  exact Vec3.add_zero' _

/-! ## Error-path unfoldings -/
theorem get_good_path_length_error (lens : List Nat)
    (h : ∃ L ∈ lens, L ≠ 1 ∧ L ≠ lens.foldr max 1) :
    get_good_path_length lens = Except.error Err.badInputShape := by
  simp only [get_good_path_length]
  rcases h with ⟨L, hL, h1, h2⟩
  rw [if_neg]
  intro hall
  have := List.all_eq_true.mp hall L hL
  simp at this
  rcases this with h | h
  · exact h1 h
  · exact h2 h

theorem getBH_level2_shape_error (formula : Bool → SrcType → Vec3 → List ℚ → Vec3 → Vec3)
    (bh : Bool) (sources : List SrcEntry) (observers : ObsInput)
    (sumup squeeze : Bool)
    (hshape : all_same ((format_observers observers).map Sensor.pixShape) = false) :
    getBH_level2 formula bh sources observers sumup squeeze =
      ⟨format_obj_input sources, format_observers observers,
       Except.error Err.badInputShape⟩ := by
  simp only [getBH_level2, hshape, Bool.false_eq_true, if_false]

theorem getBH_level2_path_error (formula : Bool → SrcType → Vec3 → List ℚ → Vec3 → Vec3)
    (bh : Bool) (sources : List SrcEntry) (observers : ObsInput)
    (sumup squeeze : Bool)
    (hshape : all_same ((format_observers observers).map Sensor.pixShape) = true)
    (hpath : get_good_path_length
      ((format_obj_input sources).map (fun s => s.pos.length) ++
       (format_observers observers).map (fun s => s.pos.length)) =
      Except.error Err.badInputShape) :
    getBH_level2 formula bh sources observers sumup squeeze =
      ⟨format_obj_input sources, format_observers observers,
       Except.error Err.badInputShape⟩ := by
  simp only [getBH_level2, hshape, if_true]
  rw [hpath]

theorem getBH_level2_unrecognized (formula : Bool → SrcType → Vec3 → List ℚ → Vec3 → Vec3)
    (bh : Bool) (sources : List SrcEntry) (observers : ObsInput)
    (sumup squeeze : Bool) (m : Nat)
    (hshape : all_same ((format_observers observers).map Sensor.pixShape) = true)
    (hpath : get_good_path_length
      ((format_obj_input sources).map (fun s => s.pos.length) ++
       (format_observers observers).map (fun s => s.pos.length)) = Except.ok m)
    (hunk : ∃ s ∈ format_obj_input sources, s.typ = SrcType.other) :
    getBH_level2 formula bh sources observers sumup squeeze =
      ⟨if 1 < m then (format_obj_input sources).map (tileSource m)
         else format_obj_input sources,
       if 1 < m then (format_observers observers).map (tileSensor m)
         else format_observers observers,
       Except.error Err.unrecognizedSource⟩ := by
  simp only [getBH_level2, hshape, if_true]
  rw [hpath]
  have hany : ((if 1 < m then (format_obj_input sources).map (tileSource m)
      else format_obj_input sources).any
      (fun s => decide (s.typ = SrcType.other))) = true := by
    rcases hunk with ⟨s, hs, hst⟩
    rw [List.any_eq_true]
    by_cases hm : 1 < m
    · exact ⟨tileSource m s, by rw [if_pos hm]; exact List.mem_map_of_mem _ hs,
        by simp [tileSource_typ, hst]⟩
    · exact ⟨s, by rw [if_neg hm]; exact hs, by simp [hst]⟩
  simp only [hany, if_true]

theorem vec3_neg_neg (a : Vec3) : -(-a) = a := by
  ext <;> simp

/-! ## Claim theorems -/
/-- C7: `Cube.getB` computes the field by the fixed frame-transform sequence:
subtract the source position from the observer position, rotate the difference
into the source's local frame with the inverse of the source's orientation
(`angleAxisRotation(angle, -axis, ·)`, which for a unit axis is a two-sided
inverse of the forward rotation), evaluate the closed-form formula on the
local-frame position, and rotate the resulting field vector back out with the
source's forward orientation. -/
theorem claim_C7_source_frame_transform (formula : Vec3 → Vec3 → Vec3 → Vec3)
    (cube : Cube) (pos : Vec3)
    (hcs : cube.c ^ 2 + cube.s ^ 2 = 1)
    (hax : cube.axis.dot cube.axis = 1) :
    (Cube.getB formula cube pos =
      angleAxisRotation cube.c cube.s cube.axis
        (formula cube.magnetization
          (angleAxisRotation cube.c cube.s (-cube.axis) (pos - cube.position))
          cube.dimension)) ∧
    (∀ v, angleAxisRotation cube.c cube.s (-cube.axis)
        (angleAxisRotation cube.c cube.s cube.axis v) = v) ∧
    (∀ v, angleAxisRotation cube.c cube.s cube.axis
        (angleAxisRotation cube.c cube.s (-cube.axis) v) = v) := by
  refine ⟨rfl, ?_, ?_⟩
  · intro v
    exact angleAxisRotation_neg_axis_left_inv cube.c cube.s cube.axis v hcs hax
  · intro v
    have hax' : cube.axis.x * cube.axis.x + cube.axis.y * cube.axis.y +
        cube.axis.z * cube.axis.z = 1 := hax
    have h := angleAxisRotation_neg_axis_left_inv cube.c cube.s (-cube.axis) v
      hcs (by
        simp only [Vec3.dot, Vec3.neg_x, Vec3.neg_y, Vec3.neg_z]
        linear_combination hax')
    rwa [vec3_neg_neg] at h

theorem claim_C7_witness :
    (((3 : ℚ) / 5) ^ 2 + ((4 : ℚ) / 5) ^ 2 = 1 ∧
      Vec3.dot ⟨0, 0, 1⟩ ⟨0, 0, 1⟩ = 1) ∧
    Cube.getB (fun _ p _ => p)
        ⟨⟨0, 0, 1000⟩, ⟨1, 1, 1⟩, ⟨1, 2, 3⟩, 3 / 5, 4 / 5, ⟨0, 0, 1⟩⟩
        ⟨2, 0, 1⟩ =
      angleAxisRotation (3 / 5) (4 / 5) ⟨0, 0, 1⟩
        ((fun _ p _ => p) (⟨0, 0, 1000⟩ : Vec3)
          (angleAxisRotation (3 / 5) (4 / 5) (-(⟨0, 0, 1⟩ : Vec3))
            ((⟨2, 0, 1⟩ : Vec3) - ⟨1, 2, 3⟩))
          (⟨1, 1, 1⟩ : Vec3)) :=
  ⟨⟨by norm_num, by norm_num [Vec3.dot]⟩,
   (claim_C7_source_frame_transform (fun _ p _ => p)
      ⟨⟨0, 0, 1000⟩, ⟨1, 1, 1⟩, ⟨1, 2, 3⟩, 3 / 5, 4 / 5, ⟨0, 0, 1⟩⟩
      ⟨2, 0, 1⟩ (by norm_num) (by norm_num [Vec3.dot])).1⟩

/-- C8: after grouping by family and batched evaluation, each group's output
slices are scattered back at the original pre-grouping indices, so slice `i`
of the dense tensor is always the `getBH_level1` field of the `i`-th source of
the flattened input list, regardless of how the sources were grouped. -/
theorem claim_C8_scatter_restores_source_order
    (formula : Bool → SrcType → Vec3 → List ℚ → Vec3 → Vec3) (bh : Bool)
    (src_list : List Source) (poso : List Vec3) (m n i j p : Nat)
    (hi : i < src_list.length) (hj : j < m) (hp : p < n)
    (ht : (src_list.getD i srcDflt).typ ≠ SrcType.other) :
    (((evalAllGroups formula bh src_list poso m n).getD i []).getD j []).getD
        p 0 =
      getBH_level1 formula bh (src_list.getD i srcDflt).typ
        (src_list.getD i srcDflt).ex (src_list.getD i srcDflt).dim
        ((src_list.getD i srcDflt).rot.getD j Mat3.one)
        ((src_list.getD i srcDflt).pos.getD j 0)
        (poso.getD (j * n + p) 0) := by
  rw [evalAllGroups_getD formula bh src_list poso m n i hi ht]
  unfold sliceFor
  rw [getD_map_range _ m j _ hj, getD_map_range _ n p _ hp]
  rfl

theorem claim_C8_witness :
    (([boxW, dipW].getD 1 srcDflt).typ ≠ SrcType.other) ∧
    (((evalAllGroups fmlW true [boxW, dipW] [⟨2, 0, 0⟩] 1 1).getD 1 []).getD
        0 []).getD 0 0 =
      getBH_level1 fmlW true ([boxW, dipW].getD 1 srcDflt).typ
        ([boxW, dipW].getD 1 srcDflt).ex ([boxW, dipW].getD 1 srcDflt).dim
        (([boxW, dipW].getD 1 srcDflt).rot.getD 0 Mat3.one)
        (([boxW, dipW].getD 1 srcDflt).pos.getD 0 0)
        (([(⟨2, 0, 0⟩ : Vec3)]).getD (0 * 1 + 0) 0) :=
  ⟨by decide,
   claim_C8_scatter_restores_source_order fmlW true [boxW, dipW]
     [⟨2, 0, 0⟩] 1 1 1 0 0 (by decide) (by decide) (by decide) (by decide)⟩

theorem outData_ok (a : List Source) (b : List Sensor) (A : NDArray) :
    (EvalResult.mk a b (Except.ok A)).outData = A.data := rfl

theorem outShape_ok (a : List Source) (b : List Sensor) (A : NDArray) :
    (EvalResult.mk a b (Except.ok A)).outShape = A.shape := rfl

theorem format_obj_input_coll (col : List Source) :
    format_obj_input [SrcEntry.coll col] = col := by
  simp [format_obj_input]

theorem idx_bound (m K npix j i p : Nat) (hj : j < m) (hi : i < K)
    (hp : p < npix) : (j * K + i) * npix + p < m * (K * npix) := by
  have h1 : j * K + i + 1 ≤ m * K := by
    calc j * K + i + 1 ≤ j * K + K := by omega
    _ = (j + 1) * K := by ring
    _ ≤ m * K := Nat.mul_le_mul_right K hj
  calc (j * K + i) * npix + p < (j * K + i) * npix + npix := by omega
  _ = (j * K + i + 1) * npix := by ring
  _ ≤ (m * K) * npix := Nat.mul_le_mul_right npix h1
  _ = m * (K * npix) := by ring

/-- C9: the three back-rotation code paths are result-equivalent.  The code
path actually taken for a sensor is guided by its pre-tiling `unrotated` and
`static orientation` flags (skip entirely, one batched inverse rotation of the
whole slice, or a per-path-step loop); pointwise it always produces the same
value as the unconditional per-path-step branch (flags off), which applies the
step-`j` inverse rotation at every step. -/
theorem claim_C9_back_rotation_paths_equivalent
    (m : Nat) (sens : Sensor) (kp i : Nat)
    (B : List (List (List Vec3))) (e j c : Nat)
    (hm : 1 ≤ m) (hj : j < m)
    (hw : sens.rot.length = sens.pos.length)
    (hL : sens.pos.length = 1 ∨ sens.pos.length = m) :
    (((applyOneSensorRot kp i (unrotatedSensor sens) (staticSensorRot sens)
        ((tiledSens m sens).rot) B).getD e []).getD j []).getD c 0 =
      (((applyOneSensorRot kp i false false
        ((tiledSens m sens).rot) B).getD e []).getD j []).getD c 0 := by
  rw [applyOneSensorRot_getD, applyOneSensorRot_getD]
  by_cases hc : i * kp ≤ c ∧ c < (i + 1) * kp
  · rw [if_pos hc, if_pos hc,
      sensBackRot_eq_per_step m sens j _ hm hj hw hL]
    rfl
  · rw [if_neg hc, if_neg hc]

theorem claim_C9_witness :
    ((1 : Nat) ≤ 1 ∧ (0 : Nat) < 1 ∧
      sensRW.rot.length = sensRW.pos.length ∧
      (sensRW.pos.length = 1 ∨ sensRW.pos.length = 1)) ∧
    (((applyOneSensorRot 1 0 (unrotatedSensor sensRW) (staticSensorRot sensRW)
        ((tiledSens 1 sensRW).rot) [[[⟨1, 2, 3⟩]]]).getD 0 []).getD 0 []).getD
        0 0 =
      (((applyOneSensorRot 1 0 false false
        ((tiledSens 1 sensRW).rot) [[[⟨1, 2, 3⟩]]]).getD 0 []).getD 0 []).getD
        0 0 :=
  ⟨by decide,
   claim_C9_back_rotation_paths_equivalent 1 sensRW 1 0 [[[⟨1, 2, 3⟩]]] 0 0 0
     (by decide) (by decide) (by decide) (by decide)⟩

/-- C10: a bare position tuple/array observers argument, and a list of only
bare positions, are each wrapped as exactly one Sensor (identity orientation,
path length 1) whose pixel grid holds all the given positions; such a sensor
is classified as unrotated, the back-rotation stage leaves its values
untouched (world frame), and it contributes exactly one entry to the sensor
output axis. -/
theorem claim_C10_bare_positions_one_identity_sensor
    (dims : List Nat) (data : List Vec3) (items : List ObsItem)
    (hb : items.any ObsItem.isSens = false) :
    format_observers (ObsInput.array dims data) = [Sensor.ofPos dims data] ∧
    format_observers (ObsInput.list items) =
      [Sensor.ofPos [items.length] (items.filterMap ObsItem.barePos)] ∧
    (∀ d l, unrotatedSensor (Sensor.ofPos d l) = true) ∧
    (∀ d l, (Sensor.ofPos d l).pos.length = 1) ∧
    (∀ d l, (Sensor.ofPos d l).rot = [Mat3.one]) ∧
    (∀ d l, (Sensor.ofPos d l).pix = l) ∧
    (∀ kp i st rots B, applyOneSensorRot kp i true st rots B = B) ∧
    (format_observers (ObsInput.array dims data)).length = 1 ∧
    (format_observers (ObsInput.list items)).length = 1 := by
  refine ⟨rfl, ?_, fun _ _ => rfl, fun _ _ => rfl, fun _ _ => rfl,
    fun _ _ => rfl, fun _ _ _ _ _ => rfl, rfl, ?_⟩
  · simp [format_observers, hb]
  · simp [format_observers, hb]

theorem claim_C10_witness :
    ([ObsItem.bare ⟨1, 0, 0⟩, ObsItem.bare ⟨0, 1, 0⟩].any ObsItem.isSens
      = false) ∧
    format_observers
        (ObsInput.list [ObsItem.bare ⟨1, 0, 0⟩, ObsItem.bare ⟨0, 1, 0⟩]) =
      [Sensor.ofPos [2] [⟨1, 0, 0⟩, ⟨0, 1, 0⟩]] ∧
    unrotatedSensor (Sensor.ofPos [2] [⟨1, 0, 0⟩, ⟨0, 1, 0⟩]) = true := by
  have h := claim_C10_bare_positions_one_identity_sensor [2]
    [⟨1, 0, 0⟩, ⟨0, 1, 0⟩] [ObsItem.bare ⟨1, 0, 0⟩, ObsItem.bare ⟨0, 1, 0⟩]
    (by decide)
  exact ⟨by decide, by simpa using h.2.1, h.2.2.1 [2] [⟨1, 0, 0⟩, ⟨0, 1, 0⟩]⟩

/-- C6: a flattened source of unrecognized family raises the
UnrecognizedSourceType hard error during the grouping stage; the result holds
for every field formula, so no batched field-formula dispatch can have run. -/
theorem claim_C6_unrecognized_source_during_grouping
    (formula : Bool → SrcType → Vec3 → List ℚ → Vec3 → Vec3) (bh : Bool)
    (sources : List SrcEntry) (observers : ObsInput) (sumup squeeze : Bool)
    (m : Nat)
    (hshape : all_same ((format_observers observers).map Sensor.pixShape)
      = true)
    (hpath : get_good_path_length
      ((format_obj_input sources).map (fun s => s.pos.length) ++
       (format_observers observers).map (fun s => s.pos.length)) =
      Except.ok m)
    (hunk : ∃ s ∈ format_obj_input sources, s.typ = SrcType.other) :
    (getBH_level2 formula bh sources observers sumup squeeze).out =
      Except.error Err.unrecognizedSource := by
  rw [getBH_level2_unrecognized formula bh sources observers sumup squeeze m
    hshape hpath hunk]

theorem claim_C6_witness :
    (get_good_path_length
      ((format_obj_input [SrcEntry.single boxW, SrcEntry.single unkW]).map
          (fun s => s.pos.length) ++
        (format_observers (ObsInput.sensor sensW)).map
          (fun s => s.pos.length)) = Except.ok 1) ∧
    (getBH_level2 fmlW true [SrcEntry.single boxW, SrcEntry.single unkW]
        (ObsInput.sensor sensW) true true).out =
      Except.error Err.unrecognizedSource :=
  ⟨by rfl,
   claim_C6_unrecognized_source_during_grouping fmlW true
     [SrcEntry.single boxW, SrcEntry.single unkW] (ObsInput.sensor sensW)
     true true 1 (by decide) (by rfl) (by decide)⟩

/-- C5: inconsistent observer pixel-grid shapes, or a participating object
whose path length is neither 1 nor the common maximum M, raise the
BadInputShape hard error; the whole returned result (error plus the untouched
formatted object states) is the same for every field formula, so no field
formula was invoked; in particular path lengths 3 and 5 raise rather than
being truncated or padded. -/
theorem claim_C5_bad_input_shape_before_formulas
    (formula : Bool → SrcType → Vec3 → List ℚ → Vec3 → Vec3) (bh : Bool)
    (sources : List SrcEntry) (observers : ObsInput) (sumup squeeze : Bool)
    (h : all_same ((format_observers observers).map Sensor.pixShape) = false ∨
      ∃ L ∈ (format_obj_input sources).map (fun s => s.pos.length) ++
            (format_observers observers).map (fun s => s.pos.length),
        L ≠ 1 ∧ L ≠
          ((format_obj_input sources).map (fun s => s.pos.length) ++
           (format_observers observers).map (fun s => s.pos.length)).foldr
            max 1) :
    getBH_level2 formula bh sources observers sumup squeeze =
      ⟨format_obj_input sources, format_observers observers,
       Except.error Err.badInputShape⟩ := by
  rcases h with h | h
  · exact getBH_level2_shape_error formula bh sources observers sumup squeeze h
  · by_cases hs : all_same ((format_observers observers).map Sensor.pixShape)
      = true
    · exact getBH_level2_path_error formula bh sources observers sumup squeeze
        hs (get_good_path_length_error _ h)
    · exact getBH_level2_shape_error formula bh sources observers sumup squeeze
        (by simpa using hs)

theorem claim_C5_witness :
    (∃ L ∈ (format_obj_input [SrcEntry.single boxP3W, SrcEntry.single
            boxP5W]).map (fun s => s.pos.length) ++
          (format_observers (ObsInput.sensor sensW)).map
            (fun s => s.pos.length),
        L ≠ 1 ∧ L ≠
          ((format_obj_input [SrcEntry.single boxP3W, SrcEntry.single
              boxP5W]).map (fun s => s.pos.length) ++
           (format_observers (ObsInput.sensor sensW)).map
             (fun s => s.pos.length)).foldr max 1) ∧
    getBH_level2 fmlW true [SrcEntry.single boxP3W, SrcEntry.single boxP5W]
        (ObsInput.sensor sensW) true true =
      ⟨format_obj_input [SrcEntry.single boxP3W, SrcEntry.single boxP5W],
       format_observers (ObsInput.sensor sensW),
       Except.error Err.badInputShape⟩ :=
  ⟨by decide,
   claim_C5_bad_input_shape_before_formulas fmlW true
     [SrcEntry.single boxP3W, SrcEntry.single boxP5W]
     (ObsInput.sensor sensW) true true (Or.inr (by decide))⟩

/-- C2 (amended): when the call succeeds, any temporary tiling of length-1
paths up to the common length is reverted before returning — the post-call
source and sensor path states equal the formatted pre-call states.  The
original claim's guarantee on error paths is false: see
`claim_C2_counterexample`, where the UnrecognizedSourceType error raised
during grouping (after tiling) leaves the tiled paths in place. -/
theorem claim_C2_tiling_reverted_on_success
    (formula : Bool → SrcType → Vec3 → List ℚ → Vec3 → Vec3) (bh : Bool)
    (sources : List SrcEntry) (observers : ObsInput) (sumup squeeze : Bool)
    (m npix : Nat)
    (hshape : all_same ((format_observers observers).map Sensor.pixShape)
      = true)
    (hpath : get_good_path_length
      ((format_obj_input sources).map (fun s => s.pos.length) ++
       (format_observers observers).map (fun s => s.pos.length)) =
      Except.ok m)
    (hnounk : ∀ s ∈ format_obj_input sources, s.typ ≠ SrcType.other)
    (hpix : ∀ s ∈ format_observers observers, s.pix.length = npix)
    (hdims : ∀ s ∈ format_observers observers, s.pixDims.prod = npix)
    (hslen : ∀ s ∈ format_obj_input sources, s.rot.length = s.pos.length)
    (hsenslen : ∀ s ∈ format_observers observers,
      s.rot.length = s.pos.length)
    (hsz : ∀ en ∈ sources, 1 ≤ en.size)
    (hnpix0 : 0 < npix) (hne : format_observers observers ≠ []) :
    (getBH_level2 formula bh sources observers sumup squeeze).srcState =
      format_obj_input sources ∧
    (getBH_level2 formula bh sources observers sumup squeeze).sensState =
      format_observers observers := by
  obtain ⟨data, heq, -, -⟩ := getBH_level2_char formula bh sources observers
    sumup squeeze m npix _ _ rfl rfl hshape hpath hnounk hpix hdims hslen
    hsenslen hsz hnpix0 hne
  rw [heq]
  exact ⟨rfl, rfl⟩

theorem claim_C2_witness :
    (get_good_path_length
      ((format_obj_input [SrcEntry.single boxW]).map (fun s => s.pos.length) ++
       (format_observers (ObsInput.sensor sensW2)).map
         (fun s => s.pos.length)) = Except.ok 2) ∧
    (getBH_level2 fmlW true [SrcEntry.single boxW] (ObsInput.sensor sensW2)
        true true).srcState = format_obj_input [SrcEntry.single boxW] ∧
    (getBH_level2 fmlW true [SrcEntry.single boxW] (ObsInput.sensor sensW2)
        true true).sensState = format_observers (ObsInput.sensor sensW2) :=
  ⟨by rfl,
   claim_C2_tiling_reverted_on_success fmlW true [SrcEntry.single boxW]
     (ObsInput.sensor sensW2) true true 2 1 (by decide) (by rfl) (by decide)
     (by decide) (by decide) (by decide) (by decide) (by decide) (by decide)
     (by decide)⟩

/-- C2 counterexample: a call in which the length-1 path of the first source
is tiled up to the common length 2 and which then raises
UnrecognizedSourceType during grouping returns with the first source's path
still tiled to length 2 — the rollback is not performed on this error path. -/
theorem claim_C2_counterexample :
    (getBH_level2 fmlW true [SrcEntry.single boxW, SrcEntry.single unkW]
        (ObsInput.sensor sensW2) true true).out =
      Except.error Err.unrecognizedSource ∧
    boxW.pos.length = 1 ∧
    ((getBH_level2 fmlW true [SrcEntry.single boxW, SrcEntry.single unkW]
        (ObsInput.sensor sensW2) true true).srcState.getD 0 srcDflt).pos.length
      = 2 :=
  ⟨rfl, rfl, rfl⟩

/-- C1: with a Collection among the top-level sources and a rotated sensor
among the observers, each output cell is obtained by computing every member's
field in the world frame (`worldField`), summing the members of the same
Collection element-wise (`vsum` over the entry's members), and only then
applying the observer's inverse orientation once to the summed result — one
rotation per observer cell, not one per member. -/
theorem claim_C1_sum_members_then_rotate_once
    (formula : Bool → SrcType → Vec3 → List ℚ → Vec3 → Vec3) (bh : Bool)
    (sources : List SrcEntry) (observers : ObsInput)
    (m npix : Nat) (e j i p : Nat)
    (hcoll : ∃ ms, SrcEntry.coll ms ∈ sources)
    (hrot : ∃ s ∈ format_observers observers, unrotatedSensor s = false)
    (hshape : all_same ((format_observers observers).map Sensor.pixShape)
      = true)
    (hpath : get_good_path_length
      ((format_obj_input sources).map (fun s => s.pos.length) ++
       (format_observers observers).map (fun s => s.pos.length)) =
      Except.ok m)
    (hnounk : ∀ s ∈ format_obj_input sources, s.typ ≠ SrcType.other)
    (hpix : ∀ s ∈ format_observers observers, s.pix.length = npix)
    (hdims : ∀ s ∈ format_observers observers, s.pixDims.prod = npix)
    (hslen : ∀ s ∈ format_obj_input sources, s.rot.length = s.pos.length)
    (hsenslen : ∀ s ∈ format_observers observers,
      s.rot.length = s.pos.length)
    (hsz : ∀ en ∈ sources, 1 ≤ en.size)
    (hnpix0 : 0 < npix) (hne : format_observers observers ≠ [])
    (he : e < sources.length) (hj : j < m)
    (hi : i < (format_observers observers).length) (hp : p < npix) :
    (getBH_level2 formula bh sources observers false false).outData.getD
        (((e * m + j) * (format_observers observers).length + i) * npix + p)
        0 =
      ((tiledSens m ((format_observers observers).getD i sensDflt)).rot.getD j
          Mat3.one).inv.apply
        (vsum ((sources.getD e (SrcEntry.single srcDflt)).members.map
          (fun s0 => worldField formula bh (tiledSrc m s0) j
            (obsPosAt m ((format_observers observers).getD i sensDflt) j
              p)))) := by
  obtain ⟨data, heq, hlen, hval⟩ := getBH_level2_char formula bh sources
    observers false false m npix _ _ rfl rfl hshape hpath hnounk hpix hdims
    hslen hsenslen hsz hnpix0 hne
  rw [heq, outData_ok, postProcess_ff]
  show data.getD _ 0 = _
  rw [hval e j i p he hj hi hp]
  have hmem : (format_observers observers).getD i sensDflt ∈
      format_observers observers := getD_mem _ _ _ hi
  rw [sensBackRot_eq_per_step m _ j _ (get_good_path_length_ok _ _ hpath).1
    hj (hsenslen _ hmem)
    ((get_good_path_length_ok _ _ hpath).2 _
      (List.mem_append.mpr (Or.inr (List.mem_map_of_mem _ hmem))))]

theorem claim_C1_witness :
    unrotatedSensor sensRW = false ∧
    (getBH_level2 fmlW true [SrcEntry.coll [boxW, boxBW]]
        (ObsInput.sensor sensRW) false false).outData.getD
        (((0 * 1 + 0) * (format_observers (ObsInput.sensor sensRW)).length
          + 0) * 1 + 0) 0 =
      ((tiledSens 1 ((format_observers (ObsInput.sensor sensRW)).getD 0
          sensDflt)).rot.getD 0 Mat3.one).inv.apply
        (vsum (([SrcEntry.coll [boxW, boxBW]].getD 0
            (SrcEntry.single srcDflt)).members.map
          (fun s0 => worldField fmlW true (tiledSrc 1 s0) 0
            (obsPosAt 1 ((format_observers (ObsInput.sensor sensRW)).getD 0
              sensDflt) 0 0)))) :=
  ⟨by decide,
   claim_C1_sum_members_then_rotate_once fmlW true
     [SrcEntry.coll [boxW, boxBW]] (ObsInput.sensor sensRW) 1 1 0 0 0 0
     ⟨[boxW, boxBW], by decide⟩ (by decide) (by decide) (by rfl) (by decide)
     (by decide) (by decide) (by decide) (by decide) (by decide) (by decide)
     (by decide) (by decide) (by decide) (by decide) (by decide)⟩

theorem format_obj_input_single (s : Source) :
    format_obj_input [SrcEntry.single s] = [s] := by
  simp [format_obj_input]

/-- C3: Collection-is-sum.  Each cell of `Collection.getB` of
`Collection(s1,...,sk)` equals the element-wise sum over the members of the
same cell of the evaluation of each member alone at the same observers. -/
theorem claim_C3_collection_is_sum
    (formula : Bool → SrcType → Vec3 → List ℚ → Vec3 → Vec3)
    (col : List Source) (observers : ObsInput)
    (m npix : Nat) (j i p : Nat)
    (hshape : all_same ((format_observers observers).map Sensor.pixShape)
      = true)
    (hpathC : get_good_path_length (col.map (fun s => s.pos.length) ++
      (format_observers observers).map (fun s => s.pos.length)) =
      Except.ok m)
    (hpathS : ∀ s ∈ col, get_good_path_length ([s.pos.length] ++
      (format_observers observers).map (fun s2 => s2.pos.length)) =
      Except.ok m)
    (hnounk : ∀ s ∈ col, s.typ ≠ SrcType.other)
    (hpix : ∀ s ∈ format_observers observers, s.pix.length = npix)
    (hdims : ∀ s ∈ format_observers observers, s.pixDims.prod = npix)
    (hslen : ∀ s ∈ col, s.rot.length = s.pos.length)
    (hsenslen : ∀ s ∈ format_observers observers,
      s.rot.length = s.pos.length)
    (hcol0 : col ≠ [])
    (hnpix0 : 0 < npix) (hne : format_observers observers ≠ [])
    (hj : j < m) (hi : i < (format_observers observers).length)
    (hp : p < npix) :
    (Collection_getB formula col observers).outData.getD
        ((j * (format_observers observers).length + i) * npix + p) 0 =
      vsum (col.map (fun s =>
        (getBH_level2 formula true [SrcEntry.single s] observers true
            true).outData.getD
          ((j * (format_observers observers).length + i) * npix + p) 0)) := by
  obtain ⟨dataC, heqC, hlenC, hvalC⟩ := getBH_level2_char formula true
    [SrcEntry.coll col] observers true true m npix col _
    (format_obj_input_coll col).symm rfl hshape hpathC hnounk hpix hdims
    hslen hsenslen
    (by
      intro en hen
      rw [List.mem_singleton.mp hen]
      exact List.length_pos.mpr hcol0)
    hnpix0 hne
  unfold Collection_getB
  rw [heqC, outData_ok]
  have hppC : (postProcess true true
      (⟨[[SrcEntry.coll col].length, m,
          (format_observers observers).length] ++
        ((format_observers observers).headD sensDflt).pixShape, dataC⟩ :
        NDArray)).data.getD
      ((j * (format_observers observers).length + i) * npix + p) 0 =
    dataC.getD ((j * (format_observers observers).length + i) * npix + p)
      0 := by
    apply postProcess_tt_data_getD
    · rfl
    · rw [hlenC]
      have := idx_bound m (format_observers observers).length npix j i p
        hj hi hp
      simpa using this
  rw [hppC]
  have hv := hvalC 0 j i p (by simp) hj hi hp
  simp only [Nat.zero_mul, Nat.zero_add] at hv
  rw [hv]
  simp only [List.getD_cons_zero, SrcEntry.members]
  have hR : ∀ s ∈ col,
      (getBH_level2 formula true [SrcEntry.single s] observers true
          true).outData.getD
        ((j * (format_observers observers).length + i) * npix + p) 0 =
      sensBackRot
        (unrotatedSensor ((format_observers observers).getD i sensDflt))
        (staticSensorRot ((format_observers observers).getD i sensDflt))
        ((tiledSens m ((format_observers observers).getD i sensDflt)).rot) j
        (worldField formula true (tiledSrc m s) j
          (obsPosAt m ((format_observers observers).getD i sensDflt) j
            p)) := by
    intro s hs
    obtain ⟨dataS, heqS, hlenS, hvalS⟩ := getBH_level2_char formula true
      [SrcEntry.single s] observers true true m npix [s] _
      (format_obj_input_single s).symm rfl hshape
      (by simpa using hpathS s hs)
      (by
        intro x hx
        rw [List.mem_singleton.mp hx]
        exact hnounk s hs)
      hpix hdims
      (by
        intro x hx
        rw [List.mem_singleton.mp hx]
        exact hslen s hs)
      hsenslen
      (by
        intro en hen
        rw [List.mem_singleton.mp hen]
        exact Nat.le_refl 1)
      hnpix0 hne
    rw [heqS, outData_ok]
    have hppS : (postProcess true true
        (⟨[[SrcEntry.single s].length, m,
            (format_observers observers).length] ++
          ((format_observers observers).headD sensDflt).pixShape, dataS⟩ :
          NDArray)).data.getD
        ((j * (format_observers observers).length + i) * npix + p) 0 =
      dataS.getD ((j * (format_observers observers).length + i) * npix + p)
        0 := by
      apply postProcess_tt_data_getD
      · rfl
      · rw [hlenS]
        have := idx_bound m (format_observers observers).length npix j i p
          hj hi hp
        simpa using this
    rw [hppS]
    have hv2 := hvalS 0 j i p (by simp) hj hi hp
    simp only [Nat.zero_mul, Nat.zero_add] at hv2
    rw [hv2]
    congr 1
    exact Vec3.add_zero' _
  rw [List.map_congr_left hR, ← sensBackRot_vsum, List.map_map]
  rfl

theorem claim_C3_witness :
    [boxW, boxBW] ≠ [] ∧
    (Collection_getB fmlW [boxW, boxBW] (ObsInput.sensor sensW)).outData.getD
        ((0 * (format_observers (ObsInput.sensor sensW)).length + 0) * 1 + 0)
        0 =
      vsum ([boxW, boxBW].map (fun s =>
        (getBH_level2 fmlW true [SrcEntry.single s] (ObsInput.sensor sensW)
            true true).outData.getD
          ((0 * (format_observers (ObsInput.sensor sensW)).length + 0) * 1
            + 0) 0)) :=
  ⟨by decide,
   claim_C3_collection_is_sum fmlW [boxW, boxBW] (ObsInput.sensor sensW)
     1 1 0 0 0 (by decide) (by rfl)
     (by
       intro s hs
       fin_cases hs <;> rfl)
     (by decide) (by decide) (by decide) (by decide) (by decide) (by decide)
     (by decide) (by decide) (by decide) (by decide) (by decide)⟩

/-- C4: shape contract.  With L top-level sources, common path length M, K
sensors each of pixel shape (N1, N2, 3): `squeeze=False, sumup=False` returns
shape (L, M, K, N1, N2, 3); summing over the source axis (`sumup=True`)
returns shape (M, K, N1, N2, 3); and with `squeeze=True` and
L = M = K = N1 = N2 = 1 the result is a bare 3-vector (shape (3,)). -/
theorem claim_C4_shape_contract
    (formula : Bool → SrcType → Vec3 → List ℚ → Vec3 → Vec3) (bh : Bool)
    (sources : List SrcEntry) (observers : ObsInput)
    (m npix N1 N2 : Nat)
    (hpixdims : ((format_observers observers).headD sensDflt).pixDims
      = [N1, N2])
    (hshape : all_same ((format_observers observers).map Sensor.pixShape)
      = true)
    (hpath : get_good_path_length
      ((format_obj_input sources).map (fun s => s.pos.length) ++
       (format_observers observers).map (fun s => s.pos.length)) =
      Except.ok m)
    (hnounk : ∀ s ∈ format_obj_input sources, s.typ ≠ SrcType.other)
    (hpix : ∀ s ∈ format_observers observers, s.pix.length = npix)
    (hdims : ∀ s ∈ format_observers observers, s.pixDims.prod = npix)
    (hslen : ∀ s ∈ format_obj_input sources, s.rot.length = s.pos.length)
    (hsenslen : ∀ s ∈ format_observers observers,
      s.rot.length = s.pos.length)
    (hsz : ∀ en ∈ sources, 1 ≤ en.size)
    (hnpix0 : 0 < npix) (hne : format_observers observers ≠ []) :
    (getBH_level2 formula bh sources observers false false).outShape =
      [sources.length, m, (format_observers observers).length, N1, N2, 3] ∧
    (getBH_level2 formula bh sources observers true false).outShape =
      [m, (format_observers observers).length, N1, N2, 3] ∧
    (sources.length = 1 → m = 1 →
      (format_observers observers).length = 1 → N1 = 1 → N2 = 1 →
      (getBH_level2 formula bh sources observers false true).outShape =
        [3]) := by
  have hps : ((format_observers observers).headD sensDflt).pixShape =
      [N1, N2, 3] := by
    simp only [Sensor.pixShape, hpixdims]
    rfl
  refine ⟨?_, ?_, ?_⟩
  · obtain ⟨d1, heq1, -, -⟩ := getBH_level2_char formula bh sources observers
      false false m npix _ _ rfl rfl hshape hpath hnounk hpix hdims hslen
      hsenslen hsz hnpix0 hne
    rw [heq1, outShape_ok, postProcess_ff, hps]
    rfl
  · obtain ⟨d2, heq2, -, -⟩ := getBH_level2_char formula bh sources observers
      true false m npix _ _ rfl rfl hshape hpath hnounk hpix hdims hslen
      hsenslen hsz hnpix0 hne
    rw [heq2, outShape_ok, postProcess_tf_shape, hps]
    rfl
  · intro h1 h2 h3 h4 h5
    obtain ⟨d3, heq3, -, -⟩ := getBH_level2_char formula bh sources observers
      false true m npix _ _ rfl rfl hshape hpath hnounk hpix hdims hslen
      hsenslen hsz hnpix0 hne
    rw [heq3, outShape_ok, postProcess_ft_shape, hps, h1, h3]
    subst h2 h4 h5
    rfl

theorem claim_C4_witness :
    (((format_observers (ObsInput.sensor sensP11W)).headD sensDflt).pixDims
      = [1, 1]) ∧
    (getBH_level2 fmlW true [SrcEntry.single boxW]
        (ObsInput.sensor sensP11W) false false).outShape =
      [1, 1, 1, 1, 1, 3] ∧
    (getBH_level2 fmlW true [SrcEntry.single boxW]
        (ObsInput.sensor sensP11W) true false).outShape =
      [1, 1, 1, 1, 3] ∧
    (getBH_level2 fmlW true [SrcEntry.single boxW]
        (ObsInput.sensor sensP11W) false true).outShape = [3] := by
  have h := claim_C4_shape_contract fmlW true [SrcEntry.single boxW]
    (ObsInput.sensor sensP11W) 1 1 1 1 (by decide) (by decide) (by rfl)
    (by decide) (by decide) (by decide) (by decide) (by decide) (by decide)
    (by decide) (by decide)
  exact ⟨by decide, h.1, h.2.1, h.2.2 rfl rfl rfl rfl rfl⟩
